import Mathlib

/-!
# mp3-duration: a shallow embedding of `src/index.js`

The JavaScript program walks the frame headers of an MPEG audio stream and sums
`samples / sampleRate` per frame. This file embeds its functions in Lean and proves
properties of them.

Modelling conventions.

* A byte is a `Fin 256`; a `Buffer` or a file's contents is a `List Byte`.
* `buffer[i]` is `index buffer i : Option Nat` (`none` is JavaScript's `undefined`);
  an operand of a bitwise operator goes through `bits` (`undefined` becomes `0`).
* A JavaScript number that is the result of a division is a `JsNum`: a finite value,
  held as an exact rational, or one of `Infinity`, `-Infinity`, `NaN`. Finite arithmetic
  is exact: the rounding error of IEEE doubles is not modelled, and `-0` is identified
  with `0`.
* The `while` loop is `scanLoop`, recursive on a fuel argument; `mp3Duration` supplies the
  length of the input as fuel, and `scanLoop_returns` shows that this is always enough.
* A file is the `FileHandle` that `open(filename, 'r')` resolves to: its contents, and how
  the runtime reports a read (see `FileHandle`).
-/

/-- A duration rounded to the nearest 0.001, a tie going up. -/
def nearestThousandth (q : ℚ) : ℚ := ((round (q * 1000) : ℤ) : ℚ) / 1000

namespace Mp3Duration

/-- One byte of a `Buffer`. -/
abbrev Byte := Fin 256

/-! ## JavaScript values -/

/-- The strings and numbers that `parseFrameHeader` passes around as `version`,
`simpleVersion` and `layer`. -/
inductive Val where
  | undefined
  | str (s : String)
  | num (n : Nat)
  deriving DecidableEq, Repr

/-- The operator `===` on `Val`: a string never equals a number. -/
def strictEq (a b : Val) : Bool := decide (a = b)

/-- A value used as a property key (`obj[v]`, or `'V' + v`): its string form. -/
def Val.key : Val → String
  | .undefined => "undefined"
  | .str s => s
  | .num n => toString n

/-- A JavaScript number: finite (exact), or one of the three special values. -/
inductive JsNum where
  | fin (q : ℚ)
  | posInf
  | negInf
  | nan
  deriving DecidableEq

namespace JsNum

/-- The operator `/`. A zero divisor is `+0` everywhere in the program. -/
def div : JsNum → JsNum → JsNum
  | fin a, fin b =>
    if b = 0 then (if a = 0 then nan else if 0 < a then posInf else negInf)
    else fin (a / b)
  | fin _, posInf => fin 0
  | fin _, negInf => fin 0
  | posInf, fin b => if 0 ≤ b then posInf else negInf
  | negInf, fin b => if 0 ≤ b then negInf else posInf
  | _, _ => nan

/-- The operator `+`. -/
def add : JsNum → JsNum → JsNum
  | fin a, fin b => fin (a + b)
  | fin _, posInf => posInf
  | fin _, negInf => negInf
  | posInf, fin _ => posInf
  | negInf, fin _ => negInf
  | posInf, posInf => posInf
  | negInf, negInf => negInf
  | _, _ => nan

/-- The operator `*`. -/
def mul : JsNum → JsNum → JsNum
  | fin a, fin b => fin (a * b)
  | fin a, posInf => if a = 0 then nan else if 0 < a then posInf else negInf
  | fin a, negInf => if a = 0 then nan else if 0 < a then negInf else posInf
  | posInf, fin b => if b = 0 then nan else if 0 < b then posInf else negInf
  | negInf, fin b => if b = 0 then nan else if 0 < b then negInf else posInf
  | posInf, posInf => posInf
  | negInf, negInf => posInf
  | posInf, negInf => negInf
  | negInf, posInf => negInf
  | _, _ => nan

/-- `Math.round`: the nearest integer, a tie going up; special values are kept. -/
def mathRound : JsNum → JsNum
  | fin q => fin ((⌊q + 1 / 2⌋ : ℤ) : ℚ)
  | x => x

/-- The integer part of a rational, towards zero. -/
def truncate (q : ℚ) : ℤ := if 0 ≤ q then ⌊q⌋ else ⌈q⌉

/-- `x | 0`, that is ToInt32: truncate, wrap to 32 bits signed; special values give `0`. -/
def toInt32 : JsNum → ℤ
  | fin q =>
    let m := truncate q % 4294967296
    if m < 2147483648 then m else m - 4294967296
  | _ => 0

end JsNum

/-! ## Bytes of a buffer -/

/-- `buffer[i]`: the byte at `i`, or `undefined` past the end. -/
def index (buffer : List Byte) (i : Nat) : Option Nat := (buffer[i]?).map Fin.val

/-- An operand of `&`: `undefined` converts to `0`. -/
def bits (v : Option Nat) : Nat := v.getD 0

/-! ## `skipId3` -/

/-- `skipId3(buffer)`: the number of bytes of a leading ID3v2 tag, or `0`. -/
def skipId3 (buffer : List Byte) : Nat :=
  if index buffer 0 ≠ some 0x49 ∨ index buffer 1 ≠ some 0x44 ∨ index buffer 2 ≠ some 0x33
  then 0
  else
    let id3v2Flags := bits (index buffer 5)
    let footerSize := if id3v2Flags &&& 0x10 ≠ 0 then 10 else 0
    let z0 := bits (index buffer 6)
    let z1 := bits (index buffer 7)
    let z2 := bits (index buffer 8)
    let z3 := bits (index buffer 9)
    if z0 &&& 0x80 = 0 ∧ z1 &&& 0x80 = 0 ∧ z2 &&& 0x80 = 0 ∧ z3 &&& 0x80 = 0 then
      let tagSize :=
        (z0 &&& 0x7f) * 2097152 + (z1 &&& 0x7f) * 16384 + (z2 &&& 0x7f) * 128 + (z3 &&& 0x7f)
      10 + tagSize + footerSize
    else 0

/-! ## The lookup tables -/

/-- The array `versions`. -/
def versions : List Val := [.str "2.5", .str "x", .str "2", .str "1"]

/-- The array `layers`. -/
def layers : List Val := [.str "x", .str "3", .str "2", .str "1"]

/-- The object `bitRates`: a row of fifteen rates per key. -/
def bitRates (key : String) : Option (List Nat) :=
  if key = "V1Lx" then some [0, 0, 0, 0, 0, 0, 0, 0, 0, 0, 0, 0, 0, 0, 0]
  else if key = "V1L1" then
    some [0, 32, 64, 96, 128, 160, 192, 224, 256, 288, 320, 352, 384, 416, 448]
  else if key = "V1L2" then some [0, 32, 48, 56, 64, 80, 96, 112, 128, 160, 192, 224, 256, 320, 384]
  else if key = "V1L3" then some [0, 32, 40, 48, 56, 64, 80, 96, 112, 128, 160, 192, 224, 256, 320]
  else if key = "V2Lx" then some [0, 0, 0, 0, 0, 0, 0, 0, 0, 0, 0, 0, 0, 0, 0]
  else if key = "V2L1" then some [0, 32, 48, 56, 64, 80, 96, 112, 128, 144, 160, 176, 192, 224, 256]
  else if key = "V2L2" then some [0, 8, 16, 24, 32, 40, 48, 56, 64, 80, 96, 112, 128, 144, 160]
  else if key = "V2L3" then some [0, 8, 16, 24, 32, 40, 48, 56, 64, 80, 96, 112, 128, 144, 160]
  else if key = "VxLx" then some [0, 0, 0, 0, 0, 0, 0, 0, 0, 0, 0, 0, 0, 0, 0]
  else if key = "VxL1" then some [0, 0, 0, 0, 0, 0, 0, 0, 0, 0, 0, 0, 0, 0, 0]
  else if key = "VxL2" then some [0, 0, 0, 0, 0, 0, 0, 0, 0, 0, 0, 0, 0, 0, 0]
  else if key = "VxL3" then some [0, 0, 0, 0, 0, 0, 0, 0, 0, 0, 0, 0, 0, 0, 0]
  else none

/-- The object `sampleRates`: a row of three rates per version. -/
def sampleRates (key : String) : Option (List Nat) :=
  if key = "x" then some [0, 0, 0]
  else if key = "1" then some [44100, 48000, 32000]
  else if key = "2" then some [22050, 24000, 16000]
  else if key = "2.5" then some [11025, 12000, 8000]
  else none

/-- The inner objects of `samples`: samples per frame by layer. -/
def samplesRow (x l1 l2 l3 : Nat) (layer : String) : Option Nat :=
  if layer = "x" then some x
  else if layer = "1" then some l1
  else if layer = "2" then some l2
  else if layer = "3" then some l3
  else none

/-- The object `samples`, keyed by simple version, then by layer. -/
def samples (version : String) : Option (String → Option Nat) :=
  if version = "x" then some (samplesRow 0 0 0 0)
  else if version = "1" then some (samplesRow 0 384 1152 1152)
  else if version = "2" then some (samplesRow 0 384 1152 576)
  else none

/-! ## `frameSize` and `parseFrameHeader` -/

/-- `frameSize(samples, layer, bitRate, sampleRate, paddingBit)`. The argument `layer` is
the value `parseFrameHeader` passes, an entry of `layers`. -/
def frameSize (samples : Nat) (layer : Val) (bitRate sampleRate paddingBit : Nat) : ℤ :=
  JsNum.toInt32
    (JsNum.add
      (JsNum.div (.fin ((samples * bitRate * 125 : ℕ) : ℚ)) (.fin (sampleRate : ℚ)))
      (.fin ((paddingBit * (if strictEq layer (.num 1) then 4 else 1) : ℕ) : ℚ)))

/-- The object `parseFrameHeader` returns. -/
structure FrameInfo where
  bitRate : Nat
  sampleRate : Nat
  frameSize : ℤ
  samples : Nat
  deriving DecidableEq

/-- The body of `parseFrameHeader` once the five bit fields of the header are extracted:
the table lookups and the call of `frameSize`. -/
def decodeFields (versionBits layerBits bitRateIndex sampleRateIdx paddingBit : Nat) :
    FrameInfo :=
  let version := versions.getD versionBits .undefined
  let simpleVersion := if strictEq version (.str "2.5") then Val.num 2 else version
  let layer := layers.getD layerBits .undefined
  let bitRateKey := "V" ++ simpleVersion.key ++ "L" ++ layer.key
  let bitRate := (((bitRates bitRateKey).getD [])[bitRateIndex]?).getD 0
  let sampleRate := (((sampleRates version.key).getD [])[sampleRateIdx]?).getD 0
  let sample := (((samples simpleVersion.key).getD (fun _ => none)) layer.key).getD 0
  { bitRate := bitRate
    sampleRate := sampleRate
    frameSize := frameSize sample layer bitRate sampleRate paddingBit
    samples := sample }

/-- The field `versionBits` of a header. -/
def versionBitsOf (header : List Byte) : Nat := (bits (index header 1) &&& 0x18) >>> 3

/-- The field `layerBits` of a header. -/
def layerBitsOf (header : List Byte) : Nat := (bits (index header 1) &&& 0x06) >>> 1

/-- The field `bitRateIndex` of a header. -/
def bitRateIndexOf (header : List Byte) : Nat := (bits (index header 2) &&& 0xf0) >>> 4

/-- The field `sampleRateIdx` of a header. -/
def sampleRateIdxOf (header : List Byte) : Nat := (bits (index header 2) &&& 0x0c) >>> 2

/-- The field `paddingBit` of a header. -/
def paddingBitOf (header : List Byte) : Nat := (bits (index header 2) &&& 0x02) >>> 1

/-- `parseFrameHeader(header)`. -/
def parseFrameHeader (header : List Byte) : FrameInfo :=
  decodeFields (versionBitsOf header) (layerBitsOf header) (bitRateIndexOf header)
    (sampleRateIdxOf header) (paddingBitOf header)

/-! ## `estimateDuration` and `round` -/

/-- `round(duration)`: `Math.round(duration * 1000) / 1000`. -/
def round (duration : JsNum) : JsNum :=
  JsNum.div (JsNum.mathRound (JsNum.mul duration (.fin 1000))) (.fin 1000)

/-- `estimateDuration(bitRate, offset, fileSize)`. -/
def estimateDuration (bitRate : Nat) (offset fileSize : ℤ) : JsNum :=
  let kbps := JsNum.div (.fin ((bitRate * 1000 : ℕ) : ℚ)) (.fin 8)
  let dataSize := fileSize - offset
  round (JsNum.div (.fin (dataSize : ℚ)) kbps)

/-! ## The byte sources -/

/-- The file handle that `open(filename, 'r')` resolves to. It belongs to the runtime, not
to this repository. `contents` is what the file holds. `resolvesToRecord` says what
`await fd.read(..)` yields: with `true` the object `{ bytesRead, buffer }` (what Node
documents for `fs/promises`), with `false` the bare number of bytes read (the callback
interface). Every statement below about files holds for both. -/
structure FileHandle where
  contents : List Byte
  resolvesToRecord : Bool
  deriving DecidableEq

/-- The argument `filename` of `mp3Duration`: a path (given by the handle it opens to), a
`Buffer`, or a value of any other type. -/
inductive Input where
  | path (fd : FileHandle)
  | buffer (srcBuffer : List Byte)
  | other
  deriving DecidableEq

/-- The value the variable `bytesRead` holds after a read. -/
inductive ReadResult where
  | count (n : Nat)
  | record (bytesRead : Nat)
  deriving DecidableEq

/-- The test `bytesRead < k`. An object converts to `NaN`, and `NaN < k` is false. -/
def ReadResult.lt : ReadResult → Nat → Bool
  | .count n, k => decide (n < k)
  | .record _, _ => false

/-- The bytes of the input, for the two kinds of input that have any. -/
def Input.data : Input → List Byte
  | .path fd => fd.contents
  | .buffer srcBuffer => srcBuffer
  | .other => []

/-- The loop bound `srcBuffer ? srcBuffer.length : stat.size`. -/
def Input.size (src : Input) : ℤ := (src.data.length : ℤ)

/-- The bytes a read of `length` bytes at `position` delivers: fewer than `length` at the
end of the data. -/
def readBytes (data : List Byte) (position : ℤ) (length : Nat) : List Byte :=
  (data.drop position.toNat).take length

/-- The scratch `buffer` after `got` has been written at its start. -/
def fill (buffer got : List Byte) : List Byte := got ++ buffer.drop got.length

/-- What `bytesRead` holds after `fd.read(buffer, 0, length, position)` or
`srcBuffer.copy(buffer, 0, position, position + length)` delivered `n` bytes. -/
def Input.readResult (src : Input) (n : Nat) : ReadResult :=
  match src with
  | .path fd => if fd.resolvesToRecord then .record n else .count n
  | _ => .count n

/-! ## `mp3Duration` -/

/-- An exception the program raises. -/
inductive JsError where
  | unrecognisedInputFormat
  | typeError
  deriving DecidableEq

/-- How a call of `mp3Duration` ends. -/
inductive Outcome where
  | returned (value : JsNum)
  | threw (error : JsError)
  | fuelExhausted
  deriving DecidableEq

/-- The local variables of `mp3Duration` that the loop reads and writes. -/
structure ScanState where
  buffer : List Byte
  offset : ℤ
  duration : JsNum
  info : Option FrameInfo
  deriving DecidableEq

/-- What one pass through the loop body does: fall through to the next test of the loop
condition, or leave the function. -/
inductive StepResult where
  | next (st : ScanState)
  | done (out : Outcome)
  deriving DecidableEq

/-- The frame synchronisation test `buffer[0] === 0xff && (buffer[1] & 0xe0) === 0xe0`. -/
def isSync (buffer : List Byte) : Bool :=
  decide (index buffer 0 = some 0xff ∧ bits (index buffer 1) &&& 0xe0 = 0xe0)

/-- The test for `'TAG'`. -/
def isTag (buffer : List Byte) : Bool :=
  decide (index buffer 0 = some 0x54 ∧ index buffer 1 = some 0x41 ∧ index buffer 2 = some 0x47)

/-- The `if`/`else if`/`else` of the loop body: the new `offset`, `duration` and `info`. -/
def advance (st : ScanState) (buffer : List Byte) : ScanState :=
  if isSync buffer then
    let info := parseFrameHeader buffer
    if info.frameSize ≠ 0 ∧ info.samples ≠ 0 then
      { buffer := buffer
        offset := st.offset + info.frameSize
        duration := JsNum.add st.duration
          (JsNum.div (.fin (info.samples : ℚ)) (.fin (info.sampleRate : ℚ)))
        info := some info }
    else
      { buffer := buffer, offset := st.offset + 1, duration := st.duration, info := some info }
  else if isTag buffer then
    { buffer := buffer, offset := st.offset + 128, duration := st.duration, info := st.info }
  else
    { buffer := buffer, offset := st.offset + 1, duration := st.duration, info := st.info }

/-- The early return `if (cbrEstimate && info) return round(estimateDuration(..))`. With a
`Buffer` as input `stat` is `undefined`, and reading `stat.size` raises a `TypeError`. -/
def cbrReturn (src : Input) (cbrEstimate : Bool) (st : ScanState) : StepResult :=
  match cbrEstimate, st.info with
  | true, some info =>
    match src with
    | .path fd =>
      .done (.returned (round (estimateDuration info.bitRate st.offset (fd.contents.length : ℤ))))
    | _ => .done (.threw .typeError)
  | _, _ => .next st

/-- One pass through the body of the `while` loop. -/
def iteration (src : Input) (cbrEstimate : Bool) (st : ScanState) : StepResult :=
  let got := readBytes src.data st.offset 10
  let buffer := fill st.buffer got
  if (src.readResult got.length).lt 10 then .done (.returned (round st.duration))
  else cbrReturn src cbrEstimate (advance st buffer)

/-- The `while` loop and the `return round(duration)` after it. -/
def scanLoop (src : Input) (cbrEstimate : Bool) : Nat → ScanState → Outcome
  | 0, st => if st.offset < src.size then .fuelExhausted else .returned (round st.duration)
  | fuel + 1, st =>
    if st.offset < src.size then
      match iteration src cbrEstimate st with
      | .done out => out
      | .next st1 => scanLoop src cbrEstimate fuel st1
    else .returned (round st.duration)

/-- The state in which the loop is entered, after the first 100 bytes were read into
`buffer`. -/
def initialState (buffer : List Byte) : ScanState :=
  { buffer := buffer, offset := (skipId3 buffer : ℤ), duration := .fin 0, info := none }

/-- `mp3Duration(filename, cbrEstimate)`. -/
def mp3Duration (filename : Input) (cbrEstimate : Bool) : Outcome :=
  match filename with
  | .other => .threw .unrecognisedInputFormat
  | src =>
    let got := readBytes src.data 0 100
    let buffer := fill (List.replicate 100 0) got
    if (src.readResult got.length).lt 100 then .returned (.fin 0)
    else scanLoop src cbrEstimate src.data.length (initialState buffer)

/-! ## Reference definitions taken from the specification -/

/-- The Tag Skipper in the words of the specification: no tag (`0`) unless bytes 0 to 2 are
`I`, `D`, `3` and none of bytes 6 to 9 has its high bit set; else the header's 10 bytes,
plus the size that bytes 6 to 9 encode in base 128, plus 10 for a footer when byte 5 has
bit `0x10` set. -/
def skipTagRef (buffer : List Byte) : Nat :=
  match buffer with
  | b0 :: b1 :: b2 :: _ :: _ :: b5 :: b6 :: b7 :: b8 :: b9 :: _ =>
    if (b0.val ≠ 0x49 ∨ b1.val ≠ 0x44 ∨ b2.val ≠ 0x33) ∨
        (128 ≤ b6.val ∨ 128 ≤ b7.val ∨ 128 ≤ b8.val ∨ 128 ≤ b9.val) then 0
    else
      10 + (b6.val * 2 ^ 21 + b7.val * 2 ^ 14 + b8.val * 2 ^ 7 + b9.val) +
        (if b5.val / 16 % 2 = 1 then 10 else 0)
  | _ => 0

/-- Samples per frame in the words of the specification, by the version and layer bits of
the header: MPEG 1 has 384, 1152, 1152 for Layers I, II, III; MPEG 2 and 2.5 have 384,
1152, 576; a reserved version (`0b01`) or a reserved layer (`0b00`) has 0. Layer bits
`0b11` are Layer I, `0b10` Layer II, `0b01` Layer III; version bits `0b11` are MPEG 1. -/
def samplesPerFrameRef (versionBits layerBits : Nat) : Nat :=
  if versionBits = 1 ∨ layerBits = 0 then 0
  else if layerBits = 3 then 384
  else if layerBits = 2 then 1152
  else if versionBits = 3 then 1152
  else 576

/-! ## Checking a property on all header fields -/

/-- Whether `p` holds of every combination of the five header fields. -/
def allFields (p : Nat → Nat → Nat → Nat → Nat → Bool) : Bool :=
  (List.range 4).all fun vb => (List.range 4).all fun lb => (List.range 16).all fun bi =>
    (List.range 4).all fun si => (List.range 2).all fun pb => p vb lb bi si pb

/-- Whether `p` holds of every combination of the header fields with the given version
bits. -/
def allFieldsAt (vb : Nat) (p : Nat → Nat → Nat → Nat → Nat → Bool) : Bool :=
  (List.range 4).all fun lb => (List.range 16).all fun bi =>
    (List.range 4).all fun si => (List.range 2).all fun pb => p vb lb bi si pb

/-- An arithmetic form of `decodeFields`, with the tables indexed by the bit fields
themselves and the frame size computed on natural numbers. It serves to evaluate header
properties quickly; `decodeFields_eq_fastDecode` shows that it agrees with `decodeFields`. -/
def fastDecode (versionBits layerBits bitRateIndex sampleRateIdx paddingBit : Nat) : FrameInfo :=
  let bitRate : Nat :=
    match versionBits, layerBits with
    | 3, 3 => [0, 32, 64, 96, 128, 160, 192, 224, 256, 288, 320, 352, 384, 416, 448].getD
        bitRateIndex 0
    | 3, 2 => [0, 32, 48, 56, 64, 80, 96, 112, 128, 160, 192, 224, 256, 320, 384].getD
        bitRateIndex 0
    | 3, 1 => [0, 32, 40, 48, 56, 64, 80, 96, 112, 128, 160, 192, 224, 256, 320].getD
        bitRateIndex 0
    | 1, _ => 0
    | _, 3 => [0, 32, 48, 56, 64, 80, 96, 112, 128, 144, 160, 176, 192, 224, 256].getD
        bitRateIndex 0
    | _, 2 => [0, 8, 16, 24, 32, 40, 48, 56, 64, 80, 96, 112, 128, 144, 160].getD bitRateIndex 0
    | _, 1 => [0, 8, 16, 24, 32, 40, 48, 56, 64, 80, 96, 112, 128, 144, 160].getD bitRateIndex 0
    | _, _ => 0
  let sampleRate : Nat :=
    match versionBits with
    | 3 => [44100, 48000, 32000].getD sampleRateIdx 0
    | 2 => [22050, 24000, 16000].getD sampleRateIdx 0
    | 0 => [11025, 12000, 8000].getD sampleRateIdx 0
    | _ => 0
  let sample : Nat :=
    match versionBits, layerBits with
    | 1, _ => 0
    | _, 3 => 384
    | _, 2 => 1152
    | 3, 1 => 1152
    | _, 1 => 576
    | _, _ => 0
  { bitRate := bitRate
    sampleRate := sampleRate
    frameSize :=
      if sampleRate = 0 then 0
      else ((sample * bitRate * 125 / sampleRate + paddingBit : ℕ) : ℤ)
    samples := sample }

/-! ## Runs of the loop, and streams of frames -/

/-- The state after `k` more passes through the loop body, when the loop makes that many
without leaving the function. -/
def passes (src : Input) (cbrEstimate : Bool) : Nat → ScanState → Option ScanState
  | 0, st => some st
  | k + 1, st =>
    if st.offset < src.size then
      match iteration src cbrEstimate st with
      | .done _ => none
      | .next st1 => passes src cbrEstimate k st1
    else none

/-- A valid frame: it starts with `0xFF` and the three sync bits, its version and layer bits
are not the reserved ones, its bitrate index is 1 to 14 and its sample-rate index 0 to 2,
and it is exactly as long as the frame size its header decodes to. -/
def isFrame (f : List Byte) : Bool :=
  decide (index f 0 = some 0xff ∧ bits (index f 1) &&& 0xe0 = 0xe0 ∧
    versionBitsOf f ≠ 1 ∧ layerBitsOf f ≠ 0 ∧
    1 ≤ bitRateIndexOf f ∧ bitRateIndexOf f ≤ 14 ∧ sampleRateIdxOf f ≤ 2 ∧
    (f.length : ℤ) = (parseFrameHeader f).frameSize)

/-- The playing time of a list of frames: samples over sample rate, summed. -/
def framesDuration (frames : List (List Byte)) : ℚ :=
  (frames.map fun f =>
    ((parseFrameHeader f).samples : ℚ) / ((parseFrameHeader f).sampleRate : ℚ)).sum

/-- A well-formed ID3v2 tag: the ten header bytes `ID3`, two version bytes, a flag byte and
four size bytes below `0x80`, then exactly as many bytes as the size bytes encode in base
128, plus 10 footer bytes when the flag byte has bit `0x10` set. -/
def isId3v2Tag (t : List Byte) : Bool :=
  match t with
  | b0 :: b1 :: b2 :: _ :: _ :: fl :: z0 :: z1 :: z2 :: z3 :: body =>
    decide (b0.val = 0x49 ∧ b1.val = 0x44 ∧ b2.val = 0x33 ∧
      z0.val < 128 ∧ z1.val < 128 ∧ z2.val < 128 ∧ z3.val < 128 ∧
      body.length = (z0.val * 2 ^ 21 + z1.val * 2 ^ 14 + z2.val * 2 ^ 7 + z3.val) +
        (if fl.val / 16 % 2 = 1 then 10 else 0))
  | _ => false

/-- Whether a byte stream begins with `I`, `D`, `3`. -/
def startsWithId3 (s : List Byte) : Bool :=
  decide (index s 0 = some 0x49 ∧ index s 1 = some 0x44 ∧ index s 2 = some 0x33)

/-- The same kind of input (a buffer, or a file with the same way of reporting reads)
holding other bytes. -/
def Input.withData (src : Input) (data : List Byte) : Input :=
  match src with
  | .path fd => .path { fd with contents := data }
  | .buffer _ => .buffer data
  | .other => .other

/-- One MPEG 1 Layer III frame at 32 kbit/s and 48000 Hz without padding: 96 bytes. -/
def frame96 : List Byte := [0xff, 0xfb, 0x14, 0x00] ++ List.replicate 92 0

/-- One MPEG 1 Layer III frame at 32 kbit/s and 44100 Hz without padding: 104 bytes. -/
def frame104 : List Byte := [0xff, 0xfb, 0x10, 0x00] ++ List.replicate 100 0

/-- A hundred bytes that start with a sync pattern and the free-format bitrate index 0: the
header decodes to `bitRate = 0` and `frameSize = 0`. -/
def freeFormat100 : List Byte := [0xff, 0xfb, 0x00, 0x00] ++ List.replicate 96 0

/-- A hundred bytes that start with a sync pattern, bitrate index 9 and the reserved
sample-rate index 3: the header decodes to `sampleRate = 0` and `frameSize = 0`. -/
def reservedRate100 : List Byte := [0xff, 0xfb, 0x9c, 0x00] ++ List.replicate 96 0

/-- A hundred bytes that start with a sync pattern, the free-format bitrate index 0, a valid
sample-rate index and the padding bit: the header decodes to `bitRate = 0` and
`frameSize = 1`. -/
def freeFormatPadded100 : List Byte := [0xff, 0xfb, 0x02, 0x00] ++ List.replicate 96 0

/-- A hundred bytes that start with a sync pattern and the reserved version bits `0b01`. -/
def reservedVersion100 : List Byte := [0xff, 0xef, 0xff, 0x00] ++ List.replicate 96 0

theorem byte_high_bit : ∀ b : Byte, (b.val &&& 0x80 = 0) ↔ b.val < 128 := by decide!

theorem byte_low_seven : ∀ b : Byte, b.val < 128 → b.val &&& 0x7f = b.val := by decide!

theorem byte_footer_bit : ∀ b : Byte, (b.val &&& 0x10 ≠ 0) ↔ b.val / 16 % 2 = 1 := by decide!

/-- C1: on every buffer of at least 10 bytes `skipId3` computes the Tag Skipper of the
specification: `0` unless the buffer starts with `ID3` and the four size bytes have their
high bit clear, else `10 + size + footer`. -/
theorem skipId3_eq_skipTagRef (buffer : List Byte) (h : 10 ≤ buffer.length) :
    skipId3 buffer = skipTagRef buffer := by
  match buffer, h with
  | b0 :: b1 :: b2 :: b3 :: b4 :: b5 :: b6 :: b7 :: b8 :: b9 :: rest, _ =>
    simp only [skipId3, skipTagRef, index, bits, List.getElem?_cons_zero, List.getElem?_cons_succ,
      Option.map_some', Option.getD_some, byte_high_bit, byte_footer_bit]
    by_cases hid : b0.val = 0x49 ∧ b1.val = 0x44 ∧ b2.val = 0x33
    · by_cases hz : b6.val < 128 ∧ b7.val < 128 ∧ b8.val < 128 ∧ b9.val < 128
      · obtain ⟨h0, h1, h2⟩ := hid
        obtain ⟨h6, h7, h8, h9⟩ := hz
        simp [h0, h1, h2, h6, h7, h8, h9, byte_low_seven, Nat.not_le.mpr]
      · have hz2 : 128 ≤ b6.val ∨ 128 ≤ b7.val ∨ 128 ≤ b8.val ∨ 128 ≤ b9.val := by
          omega
        obtain ⟨h0, h1, h2⟩ := hid
        simp [h0, h1, h2, hz, hz2]
    · have hid2 : b0.val ≠ 0x49 ∨ b1.val ≠ 0x44 ∨ b2.val ≠ 0x33 := by omega
      have hid3 : ¬b0.val = 0x49 ∨ ¬b1.val = 0x44 ∨ ¬b2.val = 0x33 := hid2
      simp [hid3]

/-- Witness for C1: a ten-byte `ID3` header with the footer flag and size bytes 0, 0, 1, 5. -/
theorem skipId3_eq_skipTagRef_witness :
    10 ≤ ([0x49, 0x44, 0x33, 3, 0, 0x10, 0, 0, 1, 5] : List Byte).length ∧
      skipId3 [0x49, 0x44, 0x33, 3, 0, 0x10, 0, 0, 1, 5] =
        skipTagRef [0x49, 0x44, 0x33, 3, 0, 0x10, 0, 0, 1, 5] ∧
      skipTagRef [0x49, 0x44, 0x33, 3, 0, 0x10, 0, 0, 1, 5] = 153 :=
  ⟨by decide, skipId3_eq_skipTagRef _ (by decide), by decide⟩

/-! ## The header fields and the decoder -/

theorem versionBitsOf_lt (header : List Byte) : versionBitsOf header < 4 := by
  unfold versionBitsOf
  have h := @Nat.and_le_right (bits (index header 1)) 0x18
  rw [Nat.shiftRight_eq_div_pow]
  omega

theorem layerBitsOf_lt (header : List Byte) : layerBitsOf header < 4 := by
  unfold layerBitsOf
  have h := @Nat.and_le_right (bits (index header 1)) 0x06
  rw [Nat.shiftRight_eq_div_pow]
  omega

theorem bitRateIndexOf_lt (header : List Byte) : bitRateIndexOf header < 16 := by
  unfold bitRateIndexOf
  have h := @Nat.and_le_right (bits (index header 2)) 0xf0
  rw [Nat.shiftRight_eq_div_pow]
  omega

theorem sampleRateIdxOf_lt (header : List Byte) : sampleRateIdxOf header < 4 := by
  unfold sampleRateIdxOf
  have h := @Nat.and_le_right (bits (index header 2)) 0x0c
  rw [Nat.shiftRight_eq_div_pow]
  omega

theorem paddingBitOf_lt (header : List Byte) : paddingBitOf header < 2 := by
  unfold paddingBitOf
  have h := @Nat.and_le_right (bits (index header 2)) 0x02
  rw [Nat.shiftRight_eq_div_pow]
  omega

theorem allFields_spec {p : Nat → Nat → Nat → Nat → Nat → Bool} (h : allFields p = true)
    {vb lb bi si pb : Nat} (hvb : vb < 4) (hlb : lb < 4) (hbi : bi < 16) (hsi : si < 4)
    (hpb : pb < 2) : p vb lb bi si pb = true := by
  simp only [allFields, List.all_eq_true, List.mem_range] at h
  exact h vb hvb lb hlb bi hbi si hsi pb hpb

theorem allFields_of_at (p : Nat → Nat → Nat → Nat → Nat → Bool)
    (h0 : allFieldsAt 0 p = true) (h1 : allFieldsAt 1 p = true) (h2 : allFieldsAt 2 p = true)
    (h3 : allFieldsAt 3 p = true) : allFields p = true := by
  show (List.range 4).all (fun vb => allFieldsAt vb p) = true
  rw [List.all_eq_true]
  intro vb hvb
  rw [List.mem_range] at hvb
  interval_cases vb <;> assumption

theorem decodeFields_eq_fastDecode_0 :
    allFieldsAt 0 (fun vb lb bi si pb =>
      decide (decodeFields vb lb bi si pb = fastDecode vb lb bi si pb)) = true := by
  decide!

theorem decodeFields_eq_fastDecode_1 :
    allFieldsAt 1 (fun vb lb bi si pb =>
      decide (decodeFields vb lb bi si pb = fastDecode vb lb bi si pb)) = true := by
  decide!

theorem decodeFields_eq_fastDecode_2 :
    allFieldsAt 2 (fun vb lb bi si pb =>
      decide (decodeFields vb lb bi si pb = fastDecode vb lb bi si pb)) = true := by
  decide!

theorem decodeFields_eq_fastDecode_3 :
    allFieldsAt 3 (fun vb lb bi si pb =>
      decide (decodeFields vb lb bi si pb = fastDecode vb lb bi si pb)) = true := by
  decide!

/-- On all field values in range `decodeFields` and `fastDecode` agree. -/
theorem decodeFields_eq_fastDecode :
    allFields (fun vb lb bi si pb =>
      decide (decodeFields vb lb bi si pb = fastDecode vb lb bi si pb)) = true :=
  allFields_of_at _ decodeFields_eq_fastDecode_0 decodeFields_eq_fastDecode_1
    decodeFields_eq_fastDecode_2 decodeFields_eq_fastDecode_3

/-- A decidable property checked on all field values in range holds of every header. The
check is made on `fastDecode`, which agrees with `decodeFields` on all of them. -/
theorem parseFrameHeader_of_fields
    (P : Nat → Nat → Nat → Nat → Nat → FrameInfo → Prop)
    [∀ vb lb bi si pb info, Decidable (P vb lb bi si pb info)]
    (hP : allFields (fun vb lb bi si pb => decide (P vb lb bi si pb
      (fastDecode vb lb bi si pb))) = true)
    (header : List Byte) :
    P (versionBitsOf header) (layerBitsOf header) (bitRateIndexOf header)
      (sampleRateIdxOf header) (paddingBitOf header) (parseFrameHeader header) := by
  have heq : parseFrameHeader header =
      fastDecode (versionBitsOf header) (layerBitsOf header) (bitRateIndexOf header)
        (sampleRateIdxOf header) (paddingBitOf header) :=
    of_decide_eq_true (allFields_spec decodeFields_eq_fastDecode (versionBitsOf_lt header)
      (layerBitsOf_lt header) (bitRateIndexOf_lt header) (sampleRateIdxOf_lt header)
      (paddingBitOf_lt header))
  rw [heq]
  exact of_decide_eq_true (allFields_spec hP (versionBitsOf_lt header) (layerBitsOf_lt header)
    (bitRateIndexOf_lt header) (sampleRateIdxOf_lt header) (paddingBitOf_lt header))

/-- With a zero sample rate the quotient is `Infinity` or `NaN`, and `| 0` turns it to 0. -/
theorem frameSize_zero_rate (s : Nat) (layer : Val) (br pb : Nat) :
    frameSize s layer br 0 pb = 0 := by
  unfold frameSize
  by_cases h : ((s * br * 125 : ℕ) : ℚ) = 0
  · simp [JsNum.div, JsNum.add, JsNum.toInt32, h]
  · have hpos : (0 : ℚ) < ((s * br * 125 : ℕ) : ℚ) :=
      lt_of_le_of_ne (Nat.cast_nonneg _) (Ne.symm h)
    simp only [JsNum.div, Nat.cast_zero, if_true, h, if_false, hpos, JsNum.add, JsNum.toInt32]

/-- C9: a header decodes to sample rate 0 exactly when its version bits are reserved or its
sample-rate index is 3, and then `parseFrameHeader` returns `frameSize = 0`, with `samples`
the table value for the header's version and layer. -/
theorem parseFrameHeader_zero_sampleRate (header : List Byte) :
    ((parseFrameHeader header).sampleRate = 0 ↔
        (versionBitsOf header = 1 ∨ sampleRateIdxOf header = 3)) ∧
      ((parseFrameHeader header).sampleRate = 0 →
        (parseFrameHeader header).frameSize = 0 ∧
          (parseFrameHeader header).samples =
            samplesPerFrameRef (versionBitsOf header) (layerBitsOf header)) :=
  parseFrameHeader_of_fields
    (fun vb lb _ si _ info => (info.sampleRate = 0 ↔ (vb = 1 ∨ si = 3)) ∧
      (info.sampleRate = 0 → info.frameSize = 0 ∧ info.samples = samplesPerFrameRef vb lb))
    (by decide!) header

/-- Witness for C9: an MPEG 1 Layer III header, 128 kbit/s, with sample-rate index 3. -/
theorem parseFrameHeader_zero_sampleRate_witness :
    (parseFrameHeader [0xff, 0xfb, 0x9c, 0x00]).sampleRate = 0 ∧
      (parseFrameHeader [0xff, 0xfb, 0x9c, 0x00]).bitRate = 128 ∧
      (parseFrameHeader [0xff, 0xfb, 0x9c, 0x00]).frameSize = 0 ∧
      (parseFrameHeader [0xff, 0xfb, 0x9c, 0x00]).samples = 1152 :=
  have h0 : (parseFrameHeader [0xff, 0xfb, 0x9c, 0x00]).sampleRate = 0 := by decide
  ⟨h0, by decide, ((parseFrameHeader_zero_sampleRate [0xff, 0xfb, 0x9c, 0x00]).2 h0).1,
    ((parseFrameHeader_zero_sampleRate [0xff, 0xfb, 0x9c, 0x00]).2 h0).2.trans (by decide)⟩

/-- What `frameSize` computes for a header with a non-zero sample rate: the quotient
rounded down, plus the padding bit itself, whatever the layer. -/
theorem parseFrameHeader_frameSize_eq (header : List Byte)
    (h : (parseFrameHeader header).sampleRate ≠ 0) :
    (parseFrameHeader header).frameSize =
      (((parseFrameHeader header).samples * (parseFrameHeader header).bitRate * 125 /
        (parseFrameHeader header).sampleRate + paddingBitOf header : ℕ) : ℤ) :=
  parseFrameHeader_of_fields
    (fun _ _ _ _ pb info => info.sampleRate ≠ 0 →
      info.frameSize = ((info.samples * info.bitRate * 125 / info.sampleRate + pb : ℕ) : ℤ))
    (by decide!) header h

/-- C3, at the failing input: an MPEG 1 Layer I header (layer bits `0b11`), 32 kbit/s,
44100 Hz, padding bit set. The code returns 35, one byte of padding; the formula of the
claim gives 34 + 4 = 38. -/
theorem frameSize_layerI_padding :
    layerBitsOf [0xff, 0xff, 0x12, 0x00] = 3 ∧ paddingBitOf [0xff, 0xff, 0x12, 0x00] = 1 ∧
      (parseFrameHeader [0xff, 0xff, 0x12, 0x00]).samples = 384 ∧
      (parseFrameHeader [0xff, 0xff, 0x12, 0x00]).bitRate = 32 ∧
      (parseFrameHeader [0xff, 0xff, 0x12, 0x00]).sampleRate = 44100 ∧
      (parseFrameHeader [0xff, 0xff, 0x12, 0x00]).frameSize = 35 ∧
      384 * 32 * 125 / 44100 + 1 * 4 = 38 := by
  decide!

/-- C4, counterexample: with reserved layer bits `0b00`, MPEG 1, sample-rate index 0 and
the padding bit set, `parseFrameHeader` returns `frameSize = 1`, not 0. -/
theorem reserved_layer_frameSize_one :
    layerBitsOf [0xff, 0xf9, 0x02, 0x00] = 0 ∧
      (parseFrameHeader [0xff, 0xf9, 0x02, 0x00]).frameSize = 1 ∧
      (parseFrameHeader [0xff, 0xf9, 0x02, 0x00]).frameSize ≠ 0 := by
  decide!

/-- C4, amended: reserved version bits (`0b01`) give `frameSize = 0`; reserved layer bits
(`0b00`) give `frameSize = 0` when the sample rate decodes to 0 and `frameSize = paddingBit`
otherwise; in both cases `samples = 0`. -/
theorem reserved_header_frameSize (header : List Byte)
    (h : versionBitsOf header = 1 ∨ layerBitsOf header = 0) :
    (versionBitsOf header = 1 → (parseFrameHeader header).frameSize = 0) ∧
      (parseFrameHeader header).frameSize =
        (if (parseFrameHeader header).sampleRate = 0 then 0 else (paddingBitOf header : ℤ)) ∧
      (parseFrameHeader header).samples = 0 :=
  parseFrameHeader_of_fields
    (fun vb lb _ _ pb info => (vb = 1 ∨ lb = 0) →
      ((vb = 1 → info.frameSize = 0) ∧
        info.frameSize = (if info.sampleRate = 0 then 0 else (pb : ℤ)) ∧ info.samples = 0))
    (by decide!) header h

/-- Witness for C4: reserved version bits with every other bit of the two bytes set. -/
theorem reserved_header_frameSize_witness :
    versionBitsOf [0xff, 0xef, 0xff, 0x00] = 1 ∧
      (parseFrameHeader [0xff, 0xef, 0xff, 0x00]).frameSize = 0 ∧
      (parseFrameHeader [0xff, 0xef, 0xff, 0x00]).samples = 0 :=
  ⟨by decide,
    (reserved_header_frameSize [0xff, 0xef, 0xff, 0x00] (Or.inl (by decide))).1 (by decide),
    (reserved_header_frameSize [0xff, 0xef, 0xff, 0x00] (Or.inl (by decide))).2.2⟩

/-! ## Rounding -/

theorem round_fin (q : ℚ) : round (.fin q) = .fin (nearestThousandth q) := by
  simp [round, JsNum.mul, JsNum.mathRound, JsNum.div, nearestThousandth, round_eq]

theorem index_fill (buffer got : List Byte) {i : Nat} (h : i < got.length) :
    index (fill buffer got) i = index got i := by
  unfold index fill
  rw [List.getElem?_append_left h]

theorem index_take (l : List Byte) {i n : Nat} (h : i < n) :
    index (l.take n) i = index l i := by
  unfold index
  rw [List.getElem?_take, if_pos h]

theorem readBytes_at (pre rest : List Byte) (n : Nat) :
    readBytes (pre ++ rest) (pre.length : ℤ) n = rest.take n := by
  unfold readBytes
  rw [Int.toNat_ofNat, List.drop_left]

/-- Two buffers that agree on their first three bytes. -/
theorem isSync_congr {a b : List Byte} (h0 : index a 0 = index b 0)
    (h1 : index a 1 = index b 1) : isSync a = isSync b := by
  unfold isSync
  rw [h0, h1]

theorem isTag_congr {a b : List Byte} (h0 : index a 0 = index b 0)
    (h1 : index a 1 = index b 1) (h2 : index a 2 = index b 2) : isTag a = isTag b := by
  unfold isTag
  rw [h0, h1, h2]

theorem parseFrameHeader_congr {a b : List Byte} (h1 : index a 1 = index b 1)
    (h2 : index a 2 = index b 2) : parseFrameHeader a = parseFrameHeader b := by
  unfold parseFrameHeader versionBitsOf layerBitsOf bitRateIndexOf sampleRateIdxOf paddingBitOf
  rw [h1, h2]

/-- A read that delivers all the bytes asked for is not taken for a short one, whatever
the kind of input. -/
theorem readResult_full (src : Input) (n : Nat) : (src.readResult n).lt n = false := by
  cases src with
  | path fd =>
    cases h : fd.resolvesToRecord <;> simp [Input.readResult, ReadResult.lt, h]
  | buffer b => simp [Input.readResult, ReadResult.lt]
  | other => simp [Input.readResult, ReadResult.lt]

/-! ## The loop -/

theorem scanLoop_exit (src : Input) (cbr : Bool) (fuel : Nat) (st : ScanState)
    (h : src.size ≤ st.offset) : scanLoop src cbr fuel st = .returned (round st.duration) := by
  have h2 : ¬ st.offset < src.size := not_lt.mpr h
  cases fuel <;> simp [scanLoop, h2]

theorem scanLoop_succ (src : Input) (cbr : Bool) (fuel : Nat) (st : ScanState) :
    scanLoop src cbr (fuel + 1) st =
      if st.offset < src.size then
        match iteration src cbr st with
        | .done out => out
        | .next st1 => scanLoop src cbr fuel st1
      else .returned (round st.duration) := rfl

theorem scanLoop_passes (src : Input) (cbr : Bool) (fuel : Nat) :
    ∀ (k : Nat) (st st1 : ScanState), passes src cbr k st = some st1 →
      scanLoop src cbr (fuel + k) st = scanLoop src cbr fuel st1 := by
  intro k
  induction k with
  | zero =>
    intro st st1 h
    simp only [passes, Option.some.injEq] at h
    subst h
    rfl
  | succ k ih =>
    intro st st1 h
    rw [← Nat.add_assoc]
    unfold passes at h
    rw [scanLoop_succ]
    by_cases hlt : st.offset < src.size
    · rw [if_pos hlt] at h ⊢
      cases hit : iteration src cbr st with
      | done out => rw [hit] at h; simp at h
      | next st2 =>
        rw [hit] at h
        simp only at h ⊢
        exact ih st2 st1 h
    · rw [if_neg hlt] at h
      simp at h

theorem passes_add (src : Input) (cbr : Bool) :
    ∀ (j k : Nat) (st st1 st2 : ScanState), passes src cbr j st = some st1 →
      passes src cbr k st1 = some st2 → passes src cbr (j + k) st = some st2 := by
  intro j
  induction j with
  | zero =>
    intro k st st1 st2 h1 h2
    simp only [passes, Option.some.injEq] at h1
    subst h1
    simpa using h2
  | succ j ih =>
    intro k st st1 st2 h1 h2
    have he : j + 1 + k = (j + k) + 1 := by omega
    rw [he]
    unfold passes at h1 ⊢
    by_cases hlt : st.offset < src.size
    · rw [if_pos hlt] at h1 ⊢
      cases hit : iteration src cbr st with
      | done out => rw [hit] at h1; simp at h1
      | next st3 =>
        rw [hit] at h1
        simp only at h1 ⊢
        exact ih k st3 st1 st2 h1 h2
    · rw [if_neg hlt] at h1
      simp at h1

/-! ## One pass through the loop body -/

theorem index_window (buffer rest : List Byte) (h : 10 ≤ rest.length) {i : Nat} (hi : i < 10) :
    index (fill buffer (rest.take 10)) i = index rest i := by
  rw [index_fill _ _ (by rw [List.length_take]; omega), index_take _ hi]

/-- With ten bytes left at `offset`, the pass reads them into the head of `buffer` and goes
on to the three-way branch and the early-return test. -/
theorem iteration_full (src : Input) (cbr : Bool) (st : ScanState) (pre rest : List Byte)
    (hdata : src.data = pre ++ rest) (hlen : 10 ≤ rest.length)
    (ho : st.offset = (pre.length : ℤ)) :
    iteration src cbr st = cbrReturn src cbr (advance st (fill st.buffer (rest.take 10))) := by
  unfold iteration
  simp only [hdata, ho, readBytes_at]
  have h10 : (rest.take 10).length = 10 := by rw [List.length_take]; omega
  rw [h10, readResult_full]
  simp

theorem cbrReturn_next (src : Input) (cbr : Bool) (st : ScanState)
    (h : cbr = false ∨ st.info = none) : cbrReturn src cbr st = .next st := by
  unfold cbrReturn
  rcases h with h | h
  · subst h; rfl
  · rw [h]; cases cbr <;> rfl

/-- A window that does not pass the sync test moves `offset` by 128 when it starts with
`TAG`, by 1 otherwise, and leaves `duration` and `info` alone. -/
theorem iteration_resync (src : Input) (cbr : Bool) (st : ScanState) (pre rest : List Byte)
    (hdata : src.data = pre ++ rest) (hlen : 10 ≤ rest.length)
    (ho : st.offset = (pre.length : ℤ)) (hs : isSync rest = false)
    (hinfo : cbr = false ∨ st.info = none) :
    iteration src cbr st = .next
      { buffer := fill st.buffer (rest.take 10)
        offset := st.offset + (if isTag rest then 128 else 1)
        duration := st.duration
        info := st.info } := by
  rw [iteration_full src cbr st pre rest hdata hlen ho]
  have hs1 : isSync (fill st.buffer (rest.take 10)) = false := by
    rw [← hs]
    exact isSync_congr (index_window _ _ hlen (by norm_num)) (index_window _ _ hlen (by norm_num))
  have ht1 : isTag (fill st.buffer (rest.take 10)) = isTag rest :=
    isTag_congr (index_window _ _ hlen (by norm_num)) (index_window _ _ hlen (by norm_num))
      (index_window _ _ hlen (by norm_num))
  cases ht : isTag rest
  · rw [ht] at ht1
    have : advance st (fill st.buffer (rest.take 10)) =
        { buffer := fill st.buffer (rest.take 10), offset := st.offset + 1,
          duration := st.duration, info := st.info } := by
      simp [advance, hs1, ht1]
    rw [this]
    exact cbrReturn_next _ _ _ hinfo
  · rw [ht] at ht1
    have : advance st (fill st.buffer (rest.take 10)) =
        { buffer := fill st.buffer (rest.take 10), offset := st.offset + 128,
          duration := st.duration, info := st.info } := by
      simp [advance, hs1, ht1]
    rw [this]
    exact cbrReturn_next _ _ _ hinfo

/-- A window that passes the sync test and decodes to a non-zero `frameSize` and non-zero
`samples` is taken for a frame. -/
theorem advance_frame (st : ScanState) (buffer : List Byte) (hs : isSync buffer = true)
    (hf : (parseFrameHeader buffer).frameSize ≠ 0)
    (hn : (parseFrameHeader buffer).samples ≠ 0) :
    advance st buffer =
      { buffer := buffer
        offset := st.offset + (parseFrameHeader buffer).frameSize
        duration := JsNum.add st.duration
          (JsNum.div (.fin ((parseFrameHeader buffer).samples : ℚ))
            (.fin ((parseFrameHeader buffer).sampleRate : ℚ)))
        info := some (parseFrameHeader buffer) } := by
  simp [advance, hs, hf, hn]

/-! ## Valid frames -/

/-- A header with no reserved field decodes to a usable frame of 24 to 2881 bytes. -/
theorem parseFrameHeader_valid (header : List Byte)
    (h : versionBitsOf header ≠ 1 ∧ layerBitsOf header ≠ 0 ∧ 1 ≤ bitRateIndexOf header ∧
      bitRateIndexOf header ≤ 14 ∧ sampleRateIdxOf header ≤ 2) :
    24 ≤ (parseFrameHeader header).frameSize ∧ (parseFrameHeader header).frameSize ≤ 2881 ∧
      (parseFrameHeader header).samples ≠ 0 ∧ (parseFrameHeader header).sampleRate ≠ 0 ∧
      (parseFrameHeader header).bitRate ≠ 0 :=
  parseFrameHeader_of_fields
    (fun vb lb bi si _ info => (vb ≠ 1 ∧ lb ≠ 0 ∧ 1 ≤ bi ∧ bi ≤ 14 ∧ si ≤ 2) →
      (24 ≤ info.frameSize ∧ info.frameSize ≤ 2881 ∧ info.samples ≠ 0 ∧
        info.sampleRate ≠ 0 ∧ info.bitRate ≠ 0))
    (by decide!) header h

theorem isFrame_spec {f : List Byte} (h : isFrame f = true) :
    isSync f = true ∧ (f.length : ℤ) = (parseFrameHeader f).frameSize ∧ 24 ≤ f.length ∧
      (parseFrameHeader f).samples ≠ 0 ∧ (parseFrameHeader f).sampleRate ≠ 0 := by
  simp only [isFrame, decide_eq_true_eq] at h
  obtain ⟨h0, h1, hv, hl, hb1, hb2, hsr, hlen⟩ := h
  have hv := parseFrameHeader_valid f ⟨hv, hl, hb1, hb2, hsr⟩
  refine ⟨?_, hlen, ?_, hv.2.2.1, hv.2.2.2.1⟩
  · simp [isSync, h0, h1]
  · have := hv.1
    omega

/-- The pass over a valid frame that lies at `offset`: `offset` moves to the end of the
frame and `duration` grows by the frame's samples over its sample rate. -/
theorem iteration_frame (src : Input) (st : ScanState) (pre f post : List Byte) (d : ℚ)
    (hdata : src.data = pre ++ (f ++ post)) (hf : isFrame f = true)
    (ho : st.offset = (pre.length : ℤ)) (hd : st.duration = .fin d) :
    ∃ st1, iteration src false st = .next st1 ∧
      st1.offset = ((pre ++ f).length : ℤ) ∧
      st1.duration = .fin (d + ((parseFrameHeader f).samples : ℚ) /
        ((parseFrameHeader f).sampleRate : ℚ)) ∧
      isSync st1.buffer = true := by
  obtain ⟨hsync, hlen, h24, hsam, hrate⟩ := isFrame_spec hf
  have hrest : 10 ≤ (f ++ post).length := by rw [List.length_append]; omega
  have hidx : ∀ i, i < 10 → index (fill st.buffer ((f ++ post).take 10)) i = index f i := by
    intro i hi
    rw [index_window _ _ hrest hi]
    unfold index
    rw [List.getElem?_append_left (by omega)]
  have hs1 : isSync (fill st.buffer ((f ++ post).take 10)) = true := by
    rw [← hsync]
    exact isSync_congr (hidx 0 (by norm_num)) (hidx 1 (by norm_num))
  have hp : parseFrameHeader (fill st.buffer ((f ++ post).take 10)) = parseFrameHeader f :=
    parseFrameHeader_congr (hidx 1 (by norm_num)) (hidx 2 (by norm_num))
  have hfs : (parseFrameHeader f).frameSize ≠ 0 := by rw [← hlen]; omega
  rw [iteration_full src false st pre (f ++ post) hdata hrest ho,
    advance_frame st _ hs1 (by rw [hp]; exact hfs) (by rw [hp]; exact hsam),
    cbrReturn_next _ _ _ (Or.inl rfl)]
  refine ⟨_, rfl, ?_, ?_, hs1⟩
  · simp only [hp, ho, ← hlen, List.length_append]
    push_cast
    ring
  · have hr : ((parseFrameHeader f).sampleRate : ℚ) ≠ 0 := by exact_mod_cast hrate
    simp only [hp, hd, JsNum.div, JsNum.add, hr, if_false]

/-! ## Scanning a run of frames -/

theorem size_eq (src : Input) : src.size = (src.data.length : ℤ) := rfl

/-- From a state at the start of a run of valid frames the loop makes one pass per frame,
ends at the end of the run, and has added the frames' durations. -/
theorem passes_frames (src : Input) :
    ∀ (frames : List (List Byte)) (pre post : List Byte) (st : ScanState) (d : ℚ),
      (∀ f ∈ frames, isFrame f = true) → src.data = pre ++ (frames.flatten ++ post) →
      st.offset = (pre.length : ℤ) → st.duration = .fin d →
      ∃ st1, passes src false frames.length st = some st1 ∧
        st1.offset = ((pre ++ frames.flatten).length : ℤ) ∧
        st1.duration = .fin (d + framesDuration frames) ∧
        (frames ≠ [] → isSync st1.buffer = true) := by
  intro frames
  induction frames with
  | nil =>
    intro pre post st d _ _ ho hd
    exact ⟨st, rfl, by simpa using ho, by simpa [framesDuration] using hd, by simp⟩
  | cons f fs ih =>
    intro pre post st d hfr hdata ho hd
    have hf : isFrame f = true := hfr f (List.mem_cons_self _ _)
    have hfs : ∀ x ∈ fs, isFrame x = true := fun x hx => hfr x (List.mem_cons_of_mem _ hx)
    have hdata1 : src.data = pre ++ (f ++ (fs.flatten ++ post)) := by
      rw [hdata, List.flatten_cons, List.append_assoc]
    have h24 := (isFrame_spec hf).2.2.1
    obtain ⟨st2, hit, ho2, hd2, hs2⟩ := iteration_frame src st pre f (fs.flatten ++ post) d
      hdata1 hf ho hd
    have hdata2 : src.data = (pre ++ f) ++ (fs.flatten ++ post) := by
      rw [hdata1, List.append_assoc]
    obtain ⟨st1, hp, ho1, hd1, hs1⟩ := ih (pre ++ f) post st2 _ hfs hdata2 ho2 hd2
    have hlt : st.offset < src.size := by
      rw [size_eq, hdata1, ho]
      simp only [List.length_append]
      push_cast
      omega
    refine ⟨st1, ?_, ?_, ?_, ?_⟩
    · rw [List.length_cons]
      unfold passes
      rw [if_pos hlt, hit]
      exact hp
    · rw [ho1, List.flatten_cons, List.append_assoc]
    · rw [hd1]
      simp only [framesDuration, List.map_cons, List.sum_cons]
      rw [add_assoc]
    · intro _
      by_cases hnil : fs = []
      · subst hnil
        simp only [List.length_nil, passes, Option.some.injEq] at hp
        rw [← hp]
        exact hs2
      · exact hs1 hnil

/-! ## Entering the loop -/

theorem fill_initial (data : List Byte) (h : 100 ≤ data.length) :
    fill (List.replicate 100 0) (readBytes data 0 100) = data.take 100 := by
  have hr : readBytes data 0 100 = data.take 100 := by
    simpa using readBytes_at [] data 100
  rw [hr]
  unfold fill
  have hl : (data.take 100).length = 100 := by rw [List.length_take]; omega
  rw [hl]
  simp

/-- With at least 100 bytes of input the function reads them, skips a leading tag and
enters the loop. -/
theorem mp3Duration_start (src : Input) (cbr : Bool) (h : 100 ≤ src.data.length) :
    mp3Duration src cbr =
      scanLoop src cbr src.data.length (initialState (src.data.take 100)) := by
  have hfill := fill_initial src.data h
  have hr : (readBytes src.data 0 100).length = 100 := by
    have : readBytes src.data 0 100 = src.data.take 100 := by
      simpa using readBytes_at [] src.data 100
    rw [this, List.length_take]; omega
  cases src with
  | other => simp [Input.data] at h
  | path fd =>
    simp only [mp3Duration]
    rw [hr, readResult_full, hfill]
    simp
  | buffer b =>
    simp only [mp3Duration]
    rw [hr, readResult_full, hfill]
    simp

theorem skipId3_no_tag (buffer : List Byte)
    (h : index buffer 0 ≠ some 0x49 ∨ index buffer 1 ≠ some 0x44) : skipId3 buffer = 0 := by
  unfold skipId3
  rw [if_pos]
  rcases h with h | h
  · exact Or.inl h
  · exact Or.inr (Or.inl h)

theorem frames_length_le (frames : List (List Byte)) (h : ∀ f ∈ frames, isFrame f = true) :
    frames.length ≤ frames.flatten.length := by
  induction frames with
  | nil => simp
  | cons f fs ih =>
    have h24 := (isFrame_spec (h f (List.mem_cons_self _ _))).2.2.1
    have := ih (fun x hx => h x (List.mem_cons_of_mem _ hx))
    simp only [List.length_cons, List.flatten_cons, List.length_append]
    omega

/-- The full scan of a stream of valid frames, at least 100 bytes in all, returns the sum
of the frames' durations, rounded. -/
theorem mp3Duration_frames (src : Input) (frames : List (List Byte))
    (hfr : ∀ f ∈ frames, isFrame f = true) (hdata : src.data = frames.flatten)
    (hlen : 100 ≤ frames.flatten.length) :
    mp3Duration src false = .returned (.fin (nearestThousandth (framesDuration frames))) := by
  rw [mp3Duration_start src false (by rw [hdata]; exact hlen)]
  match frames, hfr, hdata, hlen with
  | [], _, _, hlen => simp at hlen
  | f :: fs, hfr, hdata, hlen =>
    have hf := hfr f (List.mem_cons_self _ _)
    obtain ⟨_, _, h24, _, _⟩ := isFrame_spec hf
    have hf0 : index f 0 = some 0xff := by
      simp only [isFrame, decide_eq_true_eq] at hf
      exact hf.1
    have hidx : index (src.data.take 100) 0 = some 0xff := by
      rw [index_take _ (by norm_num), hdata, List.flatten_cons, ← hf0]
      unfold index
      rw [List.getElem?_append_left (by omega)]
    have hskip : skipId3 (src.data.take 100) = 0 :=
      skipId3_no_tag _ (Or.inl (by rw [hidx]; decide))
    obtain ⟨st1, hp, ho1, hd1, _⟩ := passes_frames src (f :: fs) [] []
      (initialState (src.data.take 100)) 0 hfr (by simpa using hdata)
      (by simp [initialState, hskip]) rfl
    have hN := frames_length_le (f :: fs) hfr
    have hfuel : src.data.length =
        (src.data.length - (f :: fs).length) + (f :: fs).length := by
      rw [hdata]; omega
    rw [hfuel, scanLoop_passes src false _ _ _ _ hp, scanLoop_exit _ _ _ _ (by
      rw [ho1, size_eq, hdata]; simp), hd1, round_fin]
    simp

/-! ## Streams of MPEG 1 Layer III frames -/

theorem framesDuration_append (xs ys : List (List Byte)) :
    framesDuration (xs ++ ys) = framesDuration xs + framesDuration ys := by
  simp [framesDuration]

theorem index_cons_zero (b : Byte) (l : List Byte) : index (b :: l) 0 = some b.val := by
  simp [index]

theorem index_cons_succ (b : Byte) (l : List Byte) (i : Nat) :
    index (b :: l) (i + 1) = index l i := by
  simp [index]

theorem isFrame_head {f : List Byte} (h : isFrame f = true) (post : List Byte) :
    index (f ++ post) 0 = some 0xff := by
  have h24 := (isFrame_spec h).2.2.1
  simp only [isFrame, decide_eq_true_eq] at h
  rw [← h.1]
  unfold index
  rw [List.getElem?_append_left (by omega)]

/-- A byte other than `0xFF` followed by a frame is neither a sync pattern nor `TAG`. -/
theorem stray_before_frame {g : Byte} (hg : g ≠ 0xff) {f : List Byte} (hf : isFrame f = true)
    (post : List Byte) :
    isSync (g :: (f ++ post)) = false ∧ isTag (g :: (f ++ post)) = false := by
  have hg1 : g.val ≠ 0xff := fun h => hg (Fin.ext h)
  constructor
  · simp [isSync, index_cons_zero, hg1]
  · simp [isTag, index_cons_succ, isFrame_head hf post]

/-- The pass at a stray byte that a frame follows moves `offset` by exactly 1. -/
theorem iteration_stray (src : Input) (st : ScanState) (pre f post : List Byte) (g : Byte)
    (hg : g ≠ 0xff) (hf : isFrame f = true) (hdata : src.data = pre ++ g :: (f ++ post))
    (ho : st.offset = (pre.length : ℤ)) :
    iteration src false st = .next
      { buffer := fill st.buffer ((g :: (f ++ post)).take 10)
        offset := st.offset + 1
        duration := st.duration
        info := st.info } := by
  have h24 := (isFrame_spec hf).2.2.1
  obtain ⟨hs, ht⟩ := stray_before_frame hg hf post
  have := iteration_resync src false st pre (g :: (f ++ post)) hdata
    (by simp only [List.length_cons, List.length_append]; omega) ho hs (Or.inl rfl)
  rw [this, ht]
  simp

/-- The pass at a stray last byte, after at least one frame was scanned: the read is
short, and either the function returns the rounded duration, or (a file whose reads
resolve to a record) `offset` moves by 1 and `duration` stays. -/
theorem iteration_stray_last (src : Input) (st : ScanState) (pre : List Byte) (g : Byte)
    (hg : g ≠ 0xff) (hdata : src.data = pre ++ [g]) (ho : st.offset = (pre.length : ℤ))
    (hs : isSync st.buffer = true) :
    iteration src false st = .done (.returned (round st.duration)) ∨
      ∃ st1, iteration src false st = .next st1 ∧ st1.offset = st.offset + 1 ∧
        st1.duration = st.duration := by
  have hg1 : g.val ≠ 0xff := fun h => hg (Fin.ext h)
  have hread : readBytes src.data st.offset 10 = [g] := by
    rw [hdata, ho, readBytes_at]; rfl
  unfold iteration
  simp only [hread, List.length_singleton]
  cases hlt : (src.readResult 1).lt 10
  · right
    simp only [Bool.false_eq_true, if_false]
    have hsync : isSync (fill st.buffer [g]) = false := by
      simp [isSync, index_fill, index_cons_zero, hg1]
    have htag : isTag (fill st.buffer [g]) = false := by
      have h1 : index (fill st.buffer [g]) 1 = index st.buffer 1 := by
        unfold index fill
        simp [List.getElem?_drop]
      simp only [isSync, decide_eq_true_eq] at hs
      have hb := hs.2
      simp only [isTag, h1, decide_eq_false_iff_not, not_and]
      intro _ h41
      rw [h41] at hb
      exact absurd hb (by decide)
    refine ⟨_, cbrReturn_next _ _ _ (Or.inl rfl), ?_, ?_⟩ <;> simp [advance, hsync, htag]
  · left
    simp

theorem garbage_scan (src : Input) (frames1 frames2 : List (List Byte)) (g : Byte)
    (hg : g ≠ 0xff) (h1 : ∀ f ∈ frames1, isFrame f = true)
    (h2 : ∀ f ∈ frames2, isFrame f = true)
    (hdata : src.data = frames1.flatten ++ g :: frames2.flatten)
    (hlen : 100 ≤ (frames1 ++ frames2).flatten.length) :
    mp3Duration src false =
        .returned (.fin (nearestThousandth (framesDuration (frames1 ++ frames2)))) ∧
      ∃ st, passes src false frames1.length
          (initialState (fill (List.replicate 100 0) (readBytes src.data 0 100))) = some st ∧
        st.offset = (frames1.flatten.length : ℤ) ∧
        (frames2 ≠ [] → ∃ st1, iteration src false st = .next st1 ∧
          st1.offset = st.offset + 1 ∧ st1.duration = st.duration) := by
  have hlen2 : 100 ≤ frames1.flatten.length + frames2.flatten.length := by
    simpa using hlen
  have hdl : src.data.length = frames1.flatten.length + (frames2.flatten.length + 1) := by
    rw [hdata]; simp
  have h100 : 100 ≤ src.data.length := by omega
  rw [mp3Duration_start src false h100, fill_initial src.data h100]
  have hN1 := frames_length_le frames1 h1
  have hN2 := frames_length_le frames2 h2
  -- no tag at the start
  have hskip : skipId3 (src.data.take 100) = 0 := by
    match frames1, h1, hdata with
    | f :: fs, h1, hdata =>
      refine skipId3_no_tag _ (Or.inl ?_)
      rw [index_take _ (by norm_num), hdata, List.flatten_cons, List.append_assoc,
        isFrame_head (h1 f (List.mem_cons_self _ _))]
      decide
    | [], _, hdata =>
      match frames2, h2, hdata, hlen2 with
      | [], _, _, hlen2 => simp at hlen2
      | f :: fs, h2, hdata, _ =>
        refine skipId3_no_tag _ (Or.inr ?_)
        rw [index_take _ (by norm_num), hdata, List.flatten_nil, List.nil_append,
          List.flatten_cons, index_cons_succ, isFrame_head (h2 f (List.mem_cons_self _ _))]
        decide
  obtain ⟨st1, hp1, ho1, hd1, hs1⟩ := passes_frames src frames1 [] (g :: frames2.flatten)
    (initialState (src.data.take 100)) 0 h1 (by simpa using hdata)
    (by simp [initialState, hskip]) rfl
  rw [List.nil_append] at ho1
  rw [zero_add] at hd1
  match frames2, h2, hdata, hlen2, hdl, hN2 with
  | f :: fs, h2, hdata, hlen2, hdl, hN2 =>
    have hf := h2 f (List.mem_cons_self _ _)
    have hdata1 : src.data = frames1.flatten ++ g :: (f ++ (fs.flatten ++ [])) := by
      rw [hdata]; simp
    have hit := iteration_stray src st1 frames1.flatten f (fs.flatten ++ []) g hg hf hdata1 ho1
    refine ⟨?_, st1, hp1, ho1, fun _ => ⟨_, hit, rfl, rfl⟩⟩
    have hlt : st1.offset < src.size := by rw [size_eq, ho1, hdl]; push_cast; omega
    obtain ⟨st2, hst2, ho2, hd2⟩ : ∃ st2, iteration src false st1 = .next st2 ∧
        st2.offset = st1.offset + 1 ∧ st2.duration = st1.duration := ⟨_, hit, rfl, rfl⟩
    have hp2 : passes src false 1 st1 = some st2 := by
      unfold passes
      rw [if_pos hlt, hst2]
      rfl
    obtain ⟨st3, hp3, ho3, hd3, _⟩ := passes_frames src (f :: fs) (frames1.flatten ++ [g]) []
      st2 (framesDuration frames1) h2 (by rw [hdata]; simp) (by rw [ho2, ho1]; simp)
      (by rw [hd2, hd1])
    have hp := passes_add src false _ _ _ _ _ hp1
      (passes_add src false _ _ _ _ _ hp2 hp3)
    have hfuel : src.data.length =
        (src.data.length - (frames1.length + (1 + (f :: fs).length))) +
          (frames1.length + (1 + (f :: fs).length)) := by
      omega
    have hexit : src.size ≤ st3.offset := by rw [ho3, size_eq, hdata]; simp
    rw [hfuel, scanLoop_passes src false _ _ _ _ hp, scanLoop_exit _ _ _ _ hexit, hd3,
      round_fin, framesDuration_append]
  | [], _, hdata, hlen2, hdl, _ =>
    refine ⟨?_, st1, hp1, ho1, fun h => absurd rfl h⟩
    have hne : frames1 ≠ [] := by
      intro h
      subst h
      simp at hlen2
    have hdata1 : src.data = frames1.flatten ++ [g] := by rw [hdata]; simp
    have hdl1 : src.data.length = frames1.flatten.length + 1 := by rw [hdata1]; simp
    have hlt : st1.offset < src.size := by rw [size_eq, ho1, hdl1]; push_cast; omega
    have hfuel : src.data.length =
        ((src.data.length - frames1.length - 1) + 1) + frames1.length := by
      omega
    rw [hfuel, scanLoop_passes src false _ _ _ _ hp1, scanLoop_succ, if_pos hlt,
      List.append_nil, ← round_fin, ← hd1]
    rcases iteration_stray_last src st1 frames1.flatten g hg hdata1 ho1 (hs1 hne) with
      hdone | ⟨st2, hnext, ho2, hd2⟩
    · rw [hdone]
    · have hexit : src.size ≤ st2.offset := by
        rw [ho2, ho1, size_eq, hdl1]; push_cast; omega
      rw [hnext]
      simp only
      rw [scanLoop_exit _ _ _ _ hexit, hd2]

/-- C10, counterexample: one 104-byte frame with a zero byte appended, as a buffer. After
the pass over the frame `offset` is 104, the position of the appended byte; the pass there
reads a single byte and returns the rounded duration: `offset` is not advanced by 1. -/
theorem stray_last_byte_ends_scan :
    isFrame frame104 = true ∧
      (passes (.buffer (frame104 ++ [0])) false 1
        (initialState (fill (List.replicate 100 0) (readBytes (frame104 ++ [0]) 0 100)))).map
          (fun st => (st.offset, iteration (.buffer (frame104 ++ [0])) false st)) =
        some (104, .done (.returned (.fin (26 / 1000)))) := by
  decide!

/-- C10, amended: take a stream of consecutive valid frames, at least 100 bytes in all, and
insert a byte other than `0xFF` at a frame boundary. The full scan of the result returns a
number, the same as for the original stream, namely the rounded sum of all the frames'
durations. The scan reaches the inserted byte after the frames before it, and when a frame
follows the byte, the pass there advances `offset` by exactly 1 and leaves `duration`. -/
theorem stray_byte_same_duration (frames1 frames2 : List (List Byte)) (g : Byte)
    (hg : g ≠ 0xff) (h1 : ∀ f ∈ frames1, isFrame f = true)
    (h2 : ∀ f ∈ frames2, isFrame f = true)
    (hlen : 100 ≤ (frames1 ++ frames2).flatten.length) (src src0 : Input)
    (hsrc : src.data = frames1.flatten ++ g :: frames2.flatten)
    (hsrc0 : src0.data = (frames1 ++ frames2).flatten) :
    mp3Duration src false = mp3Duration src0 false ∧
      mp3Duration src false =
        .returned (.fin (nearestThousandth (framesDuration (frames1 ++ frames2)))) ∧
      ∃ st, passes src false frames1.length
          (initialState (fill (List.replicate 100 0) (readBytes src.data 0 100))) = some st ∧
        st.offset = (frames1.flatten.length : ℤ) ∧
        (frames2 ≠ [] → ∃ st1, iteration src false st = .next st1 ∧
          st1.offset = st.offset + 1 ∧ st1.duration = st.duration) := by
  have hall : ∀ f ∈ frames1 ++ frames2, isFrame f = true := by
    intro f hf
    rcases List.mem_append.mp hf with h | h
    · exact h1 f h
    · exact h2 f h
  obtain ⟨hres, hst⟩ := garbage_scan src frames1 frames2 g hg h1 h2 hsrc hlen
  exact ⟨by rw [hres, mp3Duration_frames src0 (frames1 ++ frames2) hall hsrc0 hlen], hres, hst⟩

/-- Witness for C10: a zero byte between two 104-byte frames, in a buffer. -/
theorem stray_byte_same_duration_witness :
    mp3Duration (.buffer ([frame104].flatten ++ 0 :: [frame104].flatten)) false =
        mp3Duration (.buffer ([frame104] ++ [frame104]).flatten) false ∧
      mp3Duration (.buffer ([frame104] ++ [frame104]).flatten) false =
        .returned (.fin (52 / 1000)) :=
  ⟨(stray_byte_same_duration [frame104] [frame104] 0 (by decide) (by decide!) (by decide!)
      (by decide!) (.buffer ([frame104].flatten ++ 0 :: [frame104].flatten))
      (.buffer ([frame104] ++ [frame104]).flatten) rfl rfl).1,
    by decide!⟩

/-! ## Short buffers -/

/-- C8: for every buffer shorter than 100 bytes, the empty one included, and either value of
`cbrEstimate`, `mp3Duration` returns exactly 0. -/
theorem mp3Duration_short_buffer (bytes : List Byte) (cbrEstimate : Bool)
    (h : bytes.length < 100) : mp3Duration (.buffer bytes) cbrEstimate = .returned (.fin 0) := by
  have hr : (readBytes bytes 0 100).length = bytes.length := by
    have : readBytes bytes 0 100 = bytes.take 100 := by simpa using readBytes_at [] bytes 100
    rw [this, List.length_take]; omega
  simp only [mp3Duration, Input.data, hr, Input.readResult, ReadResult.lt]
  simp [h]

/-- Witness for C8: the 96-byte frame, in CBR mode. -/
theorem mp3Duration_short_buffer_witness :
    frame96.length < 100 ∧ mp3Duration (.buffer frame96) true = .returned (.fin 0) :=
  ⟨by decide!, mp3Duration_short_buffer frame96 true (by decide!)⟩

/-! ## The CBR estimate -/

/-- C6, at the failing input: two 104-byte frames at 32 kbit/s. Given as a buffer in CBR
mode the call raises a `TypeError`; the same bytes in a file give the estimate
(208 - 104) * 8 / 32000 = 0.026. -/
theorem cbr_buffer_raises :
    isFrame frame104 = true ∧ 100 ≤ (frame104 ++ frame104).length ∧
      mp3Duration (.buffer (frame104 ++ frame104)) true = .threw .typeError ∧
      mp3Duration (.path ⟨frame104 ++ frame104, true⟩) true = .returned (.fin (26 / 1000)) ∧
      mp3Duration (.path ⟨frame104 ++ frame104, false⟩) true =
        .returned (.fin (26 / 1000)) := by
  decide!

/-- C5, at the failing inputs: a file whose first window passes the sync test but decodes
to `frameSize = 0`. In CBR mode the call returns at once: `Infinity` when the bitrate is 0,
and an estimate from the unusable header's bitrate when the sample rate is 0. -/
theorem cbr_returns_on_unusable_frame :
    (isSync freeFormat100 = true ∧ (parseFrameHeader freeFormat100).frameSize = 0 ∧
        (parseFrameHeader freeFormat100).bitRate = 0 ∧
        mp3Duration (.path ⟨freeFormat100, true⟩) true = .returned .posInf ∧
        mp3Duration (.path ⟨freeFormat100, false⟩) true = .returned .posInf) ∧
      (isSync reservedRate100 = true ∧ (parseFrameHeader reservedRate100).frameSize = 0 ∧
        (parseFrameHeader reservedRate100).sampleRate = 0 ∧
        mp3Duration (.path ⟨reservedRate100, true⟩) true = .returned (.fin (6 / 1000)) ∧
        mp3Duration (.path ⟨reservedRate100, false⟩) true = .returned (.fin (6 / 1000))) := by
  decide!

theorem parseFrameHeader_frameSize_nonneg (header : List Byte) :
    0 ≤ (parseFrameHeader header).frameSize :=
  parseFrameHeader_of_fields (fun _ _ _ _ _ info => 0 ≤ info.frameSize) (by decide!) header

theorem advance_offset_lt (st : ScanState) (buffer : List Byte) :
    st.offset < (advance st buffer).offset := by
  have h0 := parseFrameHeader_frameSize_nonneg buffer
  by_cases hs : isSync buffer = true
  · by_cases hu :
        (parseFrameHeader buffer).frameSize ≠ 0 ∧ (parseFrameHeader buffer).samples ≠ 0
    · rw [advance_frame st buffer hs hu.1 hu.2]
      have := hu.1
      simp only
      omega
    · simp [advance, hs, hu]
  · by_cases ht : isTag buffer = true <;> simp [advance, hs, ht]

theorem iteration_offset_lt (src : Input) (cbr : Bool) (st st1 : ScanState)
    (h : iteration src cbr st = .next st1) : st.offset < st1.offset := by
  unfold iteration at h
  simp only at h
  split_ifs at h
  have hadv := advance_offset_lt st (fill st.buffer (readBytes src.data st.offset 10))
  unfold cbrReturn at h
  split at h
  · split at h <;> simp at h
  · simp only [StepResult.next.injEq] at h
    rw [← h]
    exact hadv

/-- Every pass that does not leave the function moves `offset` forward, so a fuel of the
bytes still ahead is never used up. -/
theorem scanLoop_returns (src : Input) (cbr : Bool) :
    ∀ (fuel : Nat) (st : ScanState), src.size ≤ (fuel : ℤ) + st.offset →
      scanLoop src cbr fuel st ≠ .fuelExhausted := by
  intro fuel
  induction fuel with
  | zero =>
    intro st h
    have : ¬ st.offset < src.size := by simp at h; omega
    simp [scanLoop, this]
  | succ fuel ih =>
    intro st h
    rw [scanLoop_succ]
    split_ifs with hlt
    · cases hit : iteration src cbr st with
      | next st1 =>
        simp only
        have := iteration_offset_lt src cbr st st1 hit
        exact ih st1 (by push_cast at h; omega)
      | done out =>
        simp only
        unfold iteration at hit
        simp only at hit
        split_ifs at hit
        · simp only [StepResult.done.injEq] at hit
          rw [← hit]; simp
        · unfold cbrReturn at hit
          split at hit
          · split at hit <;> simp only [StepResult.done.injEq] at hit <;> rw [← hit] <;> simp
          · simp at hit
    · simp

/-- The call of `mp3Duration` always ends by a `return` or a raised error. -/
theorem mp3Duration_ne_fuelExhausted (filename : Input) (cbr : Bool) :
    mp3Duration filename cbr ≠ .fuelExhausted := by
  unfold mp3Duration
  split
  · simp
  · simp only
    split_ifs
    · simp
    · exact scanLoop_returns _ _ _ _ (by
        simp only [size_eq, initialState]
        omega)

/-! ## More on the decoder -/

/-- C12: the `samples` value that `parseFrameHeader` returns is the table value for the
header's version and layer bits alone: MPEG 1 has 384, 1152, 1152 for Layers I, II, III;
MPEG 2 and 2.5 have 384, 1152, 576; a reserved layer or a reserved version has 0. -/
theorem parseFrameHeader_samples_eq (header : List Byte) :
    (parseFrameHeader header).samples =
      samplesPerFrameRef (versionBitsOf header) (layerBitsOf header) :=
  parseFrameHeader_of_fields
    (fun vb lb _ _ _ info => info.samples = samplesPerFrameRef vb lb) (by decide!) header

/-- A header that decodes to a non-zero frame size has a non-zero sample rate. -/
theorem sampleRate_ne_zero_of_frameSize (header : List Byte)
    (h : (parseFrameHeader header).frameSize ≠ 0) : (parseFrameHeader header).sampleRate ≠ 0 :=
  parseFrameHeader_of_fields
    (fun _ _ _ _ _ info => info.frameSize ≠ 0 → info.sampleRate ≠ 0) (by decide!) header h

/-- C17: when the loop takes the accumulate branch, that is when the decoded `frameSize` and
`samples` are both non-zero, the decoded `sampleRate` is non-zero, and the increment
`samples / sampleRate` is a positive finite number. -/
theorem accumulate_increment_positive (header : List Byte)
    (hf : (parseFrameHeader header).frameSize ≠ 0)
    (hs : (parseFrameHeader header).samples ≠ 0) :
    (parseFrameHeader header).sampleRate ≠ 0 ∧
      ∃ q : ℚ, 0 < q ∧
        JsNum.div (.fin ((parseFrameHeader header).samples : ℚ))
          (.fin ((parseFrameHeader header).sampleRate : ℚ)) = .fin q := by
  have hr := sampleRate_ne_zero_of_frameSize header hf
  have hrq : ((parseFrameHeader header).sampleRate : ℚ) ≠ 0 := by exact_mod_cast hr
  refine ⟨hr, ((parseFrameHeader header).samples : ℚ) /
    ((parseFrameHeader header).sampleRate : ℚ), ?_, by simp only [JsNum.div, hrq, if_false]⟩
  have h1 : (0 : ℚ) < ((parseFrameHeader header).samples : ℚ) := by
    exact_mod_cast Nat.pos_of_ne_zero hs
  have h2 : (0 : ℚ) < ((parseFrameHeader header).sampleRate : ℚ) := by
    exact_mod_cast Nat.pos_of_ne_zero hr
  exact div_pos h1 h2

/-- Witness for C17: the header of a 128 kbit/s MPEG 1 Layer III frame at 44100 Hz. -/
theorem accumulate_increment_positive_witness :
    (parseFrameHeader [0xff, 0xfb, 0x90, 0x00]).frameSize = 417 ∧
      (parseFrameHeader [0xff, 0xfb, 0x90, 0x00]).sampleRate ≠ 0 :=
  ⟨by decide!,
    (accumulate_increment_positive [0xff, 0xfb, 0x90, 0x00] (by decide!) (by decide!)).1⟩

theorem nearestThousandth_zero : nearestThousandth 0 = 0 := by
  simp [nearestThousandth]

/-- C13: for every 128-byte input that starts with `TAG`, the other 125 bytes arbitrary,
`mp3Duration` returns 0 in either mode. The statement covers a buffer and a file alike. -/
theorem mp3Duration_tag_only (src : Input) (rest : List Byte) (cbrEstimate : Bool)
    (hrest : rest.length = 125) (hdata : src.data = 0x54 :: 0x41 :: 0x47 :: rest) :
    mp3Duration src cbrEstimate = .returned (.fin 0) := by
  have hlen : src.data.length = 128 := by rw [hdata]; simp [hrest]
  have hskip : skipId3 (src.data.take 100) = 0 := by
    refine skipId3_no_tag _ (Or.inl ?_)
    rw [index_take _ (by norm_num), hdata, index_cons_zero]
    decide
  have hsync : isSync (0x54 :: 0x41 :: 0x47 :: rest) = false := by
    simp only [isSync, index_cons_zero, decide_eq_false_iff_not, not_and]
    intro h
    exact absurd h (by decide)
  have htag : isTag (0x54 :: 0x41 :: 0x47 :: rest) = true := by
    simp only [isTag, index_cons_zero, index_cons_succ, decide_eq_true_eq]
    exact ⟨rfl, rfl, rfl⟩
  have hit := iteration_resync src cbrEstimate (initialState (src.data.take 100)) []
    (0x54 :: 0x41 :: 0x47 :: rest) (by simpa using hdata) (by simp [hrest])
    (by simp [initialState, hskip]) hsync (Or.inr rfl)
  have hlt : (initialState (src.data.take 100)).offset < src.size := by
    rw [size_eq, hlen]; simp [initialState, hskip]
  rw [mp3Duration_start src cbrEstimate (by omega), hlen,
    show (128 : ℕ) = 127 + 1 from rfl, scanLoop_succ, if_pos hlt, hit, htag]
  simp only [if_true]
  rw [scanLoop_exit _ _ _ _ (by rw [size_eq, hlen]; simp [initialState, hskip])]
  simp only [initialState]
  rw [round_fin, nearestThousandth_zero]

/-- Witness for C13: `TAG` followed by 125 zero bytes, as a buffer in CBR mode. -/
theorem mp3Duration_tag_only_witness :
    mp3Duration (.buffer (0x54 :: 0x41 :: 0x47 :: List.replicate 125 0)) true =
      .returned (.fin 0) :=
  mp3Duration_tag_only (.buffer (0x54 :: 0x41 :: 0x47 :: List.replicate 125 0))
    (List.replicate 125 0) true (by decide!) rfl

/-! ## Sync windows that are not frames -/

theorem reserved_samples_zero (header : List Byte)
    (h : versionBitsOf header = 1 ∨ layerBitsOf header = 0) :
    (parseFrameHeader header).samples = 0 :=
  parseFrameHeader_of_fields
    (fun vb lb _ _ _ info => (vb = 1 ∨ lb = 0) → info.samples = 0) (by decide!) header h

/-- C14: at a scan position whose window passes the sync test but has reserved version
bits (`0b01`) or reserved layer bits (`0b00`), the pass through the loop body moves `offset`
by exactly 1 and leaves `duration` as it was, whatever the other header bits are. In a full
scan the loop goes on from that state; in CBR mode the early-return test follows it. -/
theorem reserved_header_resync (src : Input) (cbr : Bool) (st : ScanState)
    (pre rest : List Byte) (hdata : src.data = pre ++ rest) (hlen : 10 ≤ rest.length)
    (ho : st.offset = (pre.length : ℤ)) (hs : isSync rest = true)
    (hres : versionBitsOf rest = 1 ∨ layerBitsOf rest = 0) :
    iteration src cbr st =
        cbrReturn src cbr (advance st (fill st.buffer (rest.take 10))) ∧
      (advance st (fill st.buffer (rest.take 10))).offset = st.offset + 1 ∧
      (advance st (fill st.buffer (rest.take 10))).duration = st.duration ∧
      (cbr = false →
        iteration src cbr st = .next (advance st (fill st.buffer (rest.take 10)))) := by
  have hidx : ∀ i, i < 10 → index (fill st.buffer (rest.take 10)) i = index rest i :=
    fun i hi => index_window _ _ hlen hi
  have hs1 : isSync (fill st.buffer (rest.take 10)) = true := by
    rw [← hs]
    exact isSync_congr (hidx 0 (by norm_num)) (hidx 1 (by norm_num))
  have hp : parseFrameHeader (fill st.buffer (rest.take 10)) = parseFrameHeader rest :=
    parseFrameHeader_congr (hidx 1 (by norm_num)) (hidx 2 (by norm_num))
  have hz : (parseFrameHeader (fill st.buffer (rest.take 10))).samples = 0 := by
    rw [hp]; exact reserved_samples_zero rest hres
  have hfull := iteration_full src cbr st pre rest hdata hlen ho
  refine ⟨hfull, ?_, ?_, ?_⟩
  · simp [advance, hs1, hz]
  · simp [advance, hs1, hz]
  · intro hc
    rw [hfull]
    exact cbrReturn_next _ _ _ (Or.inl hc)

/-- Witness for C14: a window with reserved version bits at the start of a buffer. -/
theorem reserved_header_resync_witness :
    (advance (initialState reservedVersion100)
        (fill (initialState reservedVersion100).buffer (reservedVersion100.take 10))).offset =
      (initialState reservedVersion100).offset + 1 :=
  (reserved_header_resync (.buffer reservedVersion100) false
    (initialState reservedVersion100) [] reservedVersion100
    rfl (by decide!) (by decide!) (by decide!) (Or.inl (by decide!))).2.1

/-- A bitrate index of 0 or 15 decodes to bit rate 0. -/
theorem bitRate_zero_of_index (header : List Byte)
    (h : bitRateIndexOf header = 0 ∨ bitRateIndexOf header = 15) :
    (parseFrameHeader header).bitRate = 0 :=
  parseFrameHeader_of_fields
    (fun _ _ bi _ _ info => (bi = 0 ∨ bi = 15) → info.bitRate = 0) (by decide!) header h

/-- C15, at the failing input: a buffer that starts with a sync pattern, bitrate index 0,
MPEG 1 Layer III, 44100 Hz and the padding bit. The bit rate decodes to 0 but the frame
size to 1, so the window is taken for a frame: `duration` grows by 1152 / 44100, and the
full scan of these 100 bytes, which hold no frame, returns 0.026. -/
theorem free_format_padding_accepted :
    isSync freeFormatPadded100 = true ∧ bitRateIndexOf freeFormatPadded100 = 0 ∧
      (parseFrameHeader freeFormatPadded100).bitRate = 0 ∧
      (parseFrameHeader freeFormatPadded100).frameSize = 1 ∧
      (parseFrameHeader freeFormatPadded100).samples = 1152 ∧
      iteration (.buffer freeFormatPadded100) false (initialState freeFormatPadded100) =
        .next { buffer := freeFormatPadded100, offset := 1,
                duration := .fin (1152 / 44100),
                info := some (parseFrameHeader freeFormatPadded100) } ∧
      mp3Duration (.buffer freeFormatPadded100) false = .returned (.fin (26 / 1000)) := by
  decide!

/-! ## Termination of the scan -/

theorem iteration_next_eq (src : Input) (cbr : Bool) (st st1 : ScanState)
    (h : iteration src cbr st = .next st1) :
    st1 = advance st (fill st.buffer (readBytes src.data st.offset 10)) := by
  unfold iteration at h
  simp only at h
  split_ifs at h
  unfold cbrReturn at h
  split at h
  · split at h <;> simp at h
  · simp only [StepResult.next.injEq] at h
    exact h.symm

theorem advance_increment (st : ScanState) (buffer : List Byte) :
    (advance st buffer).offset = st.offset + 1 ∨ (advance st buffer).offset = st.offset + 128 ∨
      (1 ≤ (parseFrameHeader (advance st buffer).buffer).frameSize ∧
        (advance st buffer).offset =
          st.offset + (parseFrameHeader (advance st buffer).buffer).frameSize) := by
  have h0 := parseFrameHeader_frameSize_nonneg buffer
  by_cases hs : isSync buffer = true
  · by_cases hu :
        (parseFrameHeader buffer).frameSize ≠ 0 ∧ (parseFrameHeader buffer).samples ≠ 0
    · right; right
      rw [advance_frame st buffer hs hu.1 hu.2]
      have := hu.1
      exact ⟨by simp only; omega, rfl⟩
    · left
      simp [advance, hs, hu]
  · by_cases ht : isTag buffer = true
    · right; left
      simp [advance, hs, ht]
    · left
      simp [advance, hs, ht]

theorem passes_offset_le (src : Input) (cbr : Bool) :
    ∀ (k : Nat) (st st1 : ScanState), passes src cbr k st = some st1 →
      st.offset + (k : ℤ) ≤ st1.offset := by
  intro k
  induction k with
  | zero =>
    intro st st1 h
    simp only [passes, Option.some.injEq] at h
    subst h
    simp
  | succ k ih =>
    intro st st1 h
    unfold passes at h
    split_ifs at h with hlt
    cases hit : iteration src cbr st with
    | done out => rw [hit] at h; simp at h
    | next st2 =>
      rw [hit] at h
      simp only at h
      have h1 := iteration_offset_lt src cbr st st2 hit
      have h2 := ih st2 st1 h
      push_cast
      omega

/-- C16: every pass through the loop body that does not leave the function moves `offset`
forward, by 1, by 128, or by a frame size of at least 1; a pass is only made while `offset`
is below the length of the input; so when the body runs for the (k+1)-th time, k + 1 is at
most the length minus the initial offset, and the loop, given that many units of fuel,
always ends in a `return` or a raised error. -/
theorem scan_terminates (src : Input) (cbr : Bool) :
    (∀ st st1 : ScanState, iteration src cbr st = .next st1 →
      st.offset < st1.offset ∧
        (st1.offset = st.offset + 1 ∨ st1.offset = st.offset + 128 ∨
          (1 ≤ (parseFrameHeader st1.buffer).frameSize ∧
            st1.offset = st.offset + (parseFrameHeader st1.buffer).frameSize))) ∧
      (∀ (k : Nat) (st st1 : ScanState), passes src cbr (k + 1) st = some st1 →
        st.offset < src.size) ∧
      (∀ (k : Nat) (st st1 : ScanState), passes src cbr k st = some st1 →
        st1.offset < src.size → (k : ℤ) + 1 ≤ src.size - st.offset) ∧
      (∀ st : ScanState,
        scanLoop src cbr (src.size - st.offset).toNat st ≠ .fuelExhausted) ∧
      mp3Duration src cbr ≠ .fuelExhausted := by
  refine ⟨?_, ?_, ?_, ?_, mp3Duration_ne_fuelExhausted src cbr⟩
  · intro st st1 h
    refine ⟨iteration_offset_lt src cbr st st1 h, ?_⟩
    rw [iteration_next_eq src cbr st st1 h]
    exact advance_increment st _
  · intro k st st1 h
    unfold passes at h
    by_contra hlt
    rw [if_neg hlt] at h
    simp at h
  · intro k st st1 h hlt
    have := passes_offset_le src cbr k st st1 h
    omega
  · intro st
    exact scanLoop_returns src cbr _ st (by omega)

/-- Witness for C16: the first pass over a buffer that holds one 104-byte frame and a
stray byte moves `offset` from 0 to 104, and one pass is fewer than the 105 bytes. -/
theorem scan_terminates_witness :
    (passes (.buffer (frame104 ++ [0])) false 1 (initialState (frame104 ++ [0]))).isSome =
        true ∧
      ((1 : ℕ) : ℤ) + 1 ≤ (Input.buffer (frame104 ++ [0])).size -
        (initialState (frame104 ++ [0])).offset := by
  have hsome : (passes (.buffer (frame104 ++ [0])) false 1
      (initialState (frame104 ++ [0]))).isSome = true := by decide!
  refine ⟨hsome, ?_⟩
  obtain ⟨st1, hst1⟩ := Option.isSome_iff_exists.mp hsome
  have hlt : st1.offset < (Input.buffer (frame104 ++ [0])).size := by
    have hoff : (passes (.buffer (frame104 ++ [0])) false 1
        (initialState (frame104 ++ [0]))).map (fun s => s.offset) = some 104 := by decide!
    rw [hst1] at hoff
    simp only [Option.map_some', Option.some.injEq] at hoff
    rw [hoff]
    decide!
  exact (scan_terminates (.buffer (frame104 ++ [0])) false).2.2.1 1 _ st1 hst1 hlt

/-! ## The sign of the result -/

theorem skipId3_tag (t s : List Byte) (ht : isId3v2Tag t = true) :
    skipId3 ((t ++ s).take 100) = t.length := by
  match t, ht with
  | b0 :: b1 :: b2 :: b3 :: b4 :: fl :: z0 :: z1 :: z2 :: z3 :: body, ht =>
    simp only [isId3v2Tag, decide_eq_true_eq] at ht
    obtain ⟨h0, h1, h2, h6, h7, h8, h9, hbody⟩ := ht
    simp only [List.cons_append, List.take_succ_cons, skipId3, index, bits,
      List.getElem?_cons_zero, List.getElem?_cons_succ, Option.map_some', Option.getD_some,
      byte_high_bit, byte_footer_bit, List.length_cons, hbody]
    simp [h0, h1, h2, h6, h7, h8, h9, byte_low_seven]
    split_ifs <;> omega

theorem skipId3_not_id3 (s : List Byte) (hn : startsWithId3 s = false) :
    skipId3 (s.take 100) = 0 := by
  simp only [startsWithId3, decide_eq_false_iff_not] at hn
  unfold skipId3
  rw [if_pos]
  rw [index_take _ (by norm_num), index_take _ (by norm_num), index_take _ (by norm_num)]
  by_contra hc
  push_neg at hc
  exact hn hc

theorem readBytes_shift (t s : List Byte) (o : ℤ) (n : Nat) (ho : 0 ≤ o) :
    readBytes (t ++ s) (o + (t.length : ℤ)) n = readBytes s o n := by
  obtain ⟨k, rfl⟩ := Int.eq_ofNat_of_zero_le ho
  unfold readBytes
  rw [show ((k : ℤ) + (t.length : ℤ)).toNat = t.length + k by omega, Int.toNat_ofNat,
    List.drop_append]

theorem index_fill_ge (buffer got : List Byte) {i : Nat} (h : got.length ≤ i) :
    index (fill buffer got) i = index buffer i := by
  unfold index fill
  rw [List.getElem?_append_right h, List.getElem?_drop]
  congr 2
  omega

theorem advance_buffer (st : ScanState) (buffer : List Byte) :
    (advance st buffer).buffer = buffer := by
  unfold advance
  by_cases hs : isSync buffer = true
  · by_cases hu :
        (parseFrameHeader buffer).frameSize ≠ 0 ∧ (parseFrameHeader buffer).samples ≠ 0
    · simp [hs, hu]
    · simp [hs, hu]
  · by_cases ht : isTag buffer = true <;> simp [hs, ht]

/-- The three-way branch depends on the buffer through its first three bytes only. -/
theorem advance_congr (st1 st2 : ScanState) (b1 b2 : List Byte) (T : ℤ)
    (h0 : index b1 0 = index b2 0) (h1 : index b1 1 = index b2 1)
    (h2 : index b1 2 = index b2 2) (ho : st1.offset = st2.offset + T)
    (hd : st1.duration = st2.duration) :
    (advance st1 b1).offset = (advance st2 b2).offset + T ∧
      (advance st1 b1).duration = (advance st2 b2).duration := by
  have hsync := isSync_congr h0 h1
  have htag := isTag_congr h0 h1 h2
  have hp := parseFrameHeader_congr h1 h2
  by_cases hs : isSync b2 = true
  · have hs1 : isSync b1 = true := by rw [hsync]; exact hs
    by_cases hu : (parseFrameHeader b2).frameSize ≠ 0 ∧ (parseFrameHeader b2).samples ≠ 0
    · rw [advance_frame st1 b1 hs1 (by rw [hp]; exact hu.1) (by rw [hp]; exact hu.2),
        advance_frame st2 b2 hs hu.1 hu.2]
      simp only [hp, ho, hd, and_true]
      ring
    · have hu1 :
          ¬ ((parseFrameHeader b1).frameSize ≠ 0 ∧ (parseFrameHeader b1).samples ≠ 0) := by
        rw [hp]; exact hu
      simp only [advance, hs, hs1, hu, hu1, if_true, if_false, ho, hd, and_true]
      ring
  · have hs1 : ¬ isSync b1 = true := by rw [hsync]; exact hs
    by_cases ht : isTag b2 = true
    · have ht1 : isTag b1 = true := by rw [htag]; exact ht
      simp only [advance, hs, hs1, ht, ht1, Bool.false_eq_true, if_true, if_false, ho, hd,
        and_true]
      ring
    · have ht1 : ¬ isTag b1 = true := by rw [htag]; exact ht
      simp only [advance, hs, hs1, ht, ht1, Bool.false_eq_true, if_false, ho, hd, and_true]
      ring

/-- With enough fuel the result of the loop does not depend on the fuel. -/
theorem scanLoop_fuel_succ (src : Input) (cbr : Bool) :
    ∀ (fuel : Nat) (st : ScanState), src.size ≤ (fuel : ℤ) + st.offset →
      scanLoop src cbr (fuel + 1) st = scanLoop src cbr fuel st := by
  intro fuel
  induction fuel with
  | zero =>
    intro st h
    have hge : src.size ≤ st.offset := by simpa using h
    rw [scanLoop_exit _ _ _ _ hge, scanLoop_exit _ _ _ _ hge]
  | succ fuel ih =>
    intro st h
    rw [scanLoop_succ src cbr (fuel + 1), scanLoop_succ src cbr fuel]
    split_ifs with hlt
    · cases hit : iteration src cbr st with
      | done out => rfl
      | next st1 =>
        simp only
        have := iteration_offset_lt src cbr st st1 hit
        exact ih st1 (by push_cast at h; omega)
    · rfl

theorem scanLoop_fuel_add (src : Input) (cbr : Bool) (fuel : Nat) (st : ScanState)
    (h : src.size ≤ (fuel : ℤ) + st.offset) :
    ∀ k : Nat, scanLoop src cbr (fuel + k) st = scanLoop src cbr fuel st := by
  intro k
  induction k with
  | zero => rfl
  | succ k ih =>
    rw [← Nat.add_assoc, scanLoop_fuel_succ src cbr (fuel + k) st (by push_cast; omega), ih]

/-- The full scan of `t ++ s` from behind the tag `t` runs like the full scan of `s` from
its start: the offsets differ by the length of `t`, the durations agree, and the first ten
bytes of the two buffers agree as soon as a window has been read. -/
theorem scanLoop_shift (src1 src2 : Input) (t s : List Byte)
    (h1 : src1.data = t ++ s) (h2 : src2.data = s)
    (hkind : ∀ n, src1.readResult n = src2.readResult n) :
    ∀ (fuel : Nat) (st1 st2 : ScanState),
      st1.offset = st2.offset + (t.length : ℤ) → 0 ≤ st2.offset →
      st1.duration = st2.duration →
      ((∀ i, i < 10 → index st1.buffer i = index st2.buffer i) ∨
        st2.offset + 10 ≤ (s.length : ℤ)) →
      scanLoop src1 false fuel st1 = scanLoop src2 false fuel st2 := by
  have hsize : src1.size = src2.size + (t.length : ℤ) := by
    rw [size_eq, size_eq, h1, h2, List.length_append]
    push_cast
    ring
  intro fuel
  induction fuel with
  | zero =>
    intro st1 st2 ho h0 hd _
    unfold scanLoop
    have hiff : st1.offset < src1.size ↔ st2.offset < src2.size := by
      rw [ho, hsize]; omega
    by_cases hlt : st2.offset < src2.size
    · rw [if_pos hlt, if_pos (hiff.mpr hlt)]
    · rw [if_neg hlt, if_neg (fun h => hlt (hiff.mp h)), hd]
  | succ fuel ih =>
    intro st1 st2 ho h0 hd hbuf
    rw [scanLoop_succ, scanLoop_succ]
    have hiff : st1.offset < src1.size ↔ st2.offset < src2.size := by
      rw [ho, hsize]; omega
    by_cases hlt : st2.offset < src2.size
    · rw [if_pos hlt, if_pos (hiff.mpr hlt)]
      have hread : readBytes src1.data st1.offset 10 = readBytes src2.data st2.offset 10 := by
        rw [h1, h2, ho, readBytes_shift t s _ _ h0]
      have hidx : ∀ i, i < 10 →
          index (fill st1.buffer (readBytes src2.data st2.offset 10)) i =
            index (fill st2.buffer (readBytes src2.data st2.offset 10)) i := by
        intro i hi
        by_cases hgot : i < (readBytes src2.data st2.offset 10).length
        · rw [index_fill _ _ hgot, index_fill _ _ hgot]
        · rcases hbuf with hbuf | hbuf
          · rw [index_fill_ge _ _ (by omega), index_fill_ge _ _ (by omega)]
            exact hbuf i hi
          · exfalso
            apply hgot
            obtain ⟨k, hk⟩ := Int.eq_ofNat_of_zero_le h0
            rw [h2, hk]
            unfold readBytes
            rw [Int.toNat_ofNat, List.length_take, List.length_drop]
            omega
      unfold iteration
      simp only [hread, hkind]
      split_ifs
      · rw [hd]
      · rw [cbrReturn_next _ _ _ (Or.inl rfl), cbrReturn_next _ _ _ (Or.inl rfl)]
        simp only
        obtain ⟨hao, had⟩ := advance_congr st1 st2 _ _ (t.length : ℤ)
          (hidx 0 (by norm_num)) (hidx 1 (by norm_num)) (hidx 2 (by norm_num)) ho hd
        have hpos := advance_offset_lt st2 (fill st2.buffer (readBytes src2.data st2.offset 10))
        refine ih _ _ hao (by omega) had (Or.inl ?_)
        rw [advance_buffer, advance_buffer]
        exact hidx
    · rw [if_neg hlt, if_neg (fun h => hlt (hiff.mp h)), hd]

theorem readResult_withData (src : Input) (a b : List Byte) (n : Nat) :
    (src.withData a).readResult n = (src.withData b).readResult n := by
  cases src <;> rfl

/-- C19: for every byte stream `s` of at least 100 bytes that does not begin with `ID3`, and
every well-formed ID3v2 tag `t`, the full scan of `t ++ s` returns what the full scan of `s`
returns, for a buffer and for a file alike. -/
theorem leading_tag_ignored (src : Input) (t s : List Byte) (ht : isId3v2Tag t = true)
    (hs : 100 ≤ s.length) (hn : startsWithId3 s = false) :
    mp3Duration (src.withData (t ++ s)) false = mp3Duration (src.withData s) false := by
  cases src with
  | other => rfl
  | path fd =>
    have hd1 : (Input.withData (.path fd) (t ++ s)).data = t ++ s := rfl
    have hd2 : (Input.withData (.path fd) s).data = s := rfl
    rw [mp3Duration_start _ false (by rw [hd1, List.length_append]; omega),
      mp3Duration_start _ false (by rw [hd2]; exact hs), hd1, hd2, List.length_append,
      Nat.add_comm t.length s.length,
      scanLoop_fuel_add _ false s.length _ (by
        simp only [size_eq, hd1, initialState, skipId3_tag t s ht, List.length_append]
        push_cast
        omega)]
    exact scanLoop_shift _ _ t s hd1 hd2 (readResult_withData _ _ _) _ _ _
      (by simp [initialState, skipId3_tag t s ht, skipId3_not_id3 s hn])
      (by simp [initialState]) rfl
      (Or.inr (by simp only [initialState, skipId3_not_id3 s hn]; push_cast; omega))
  | buffer b =>
    have hd1 : (Input.withData (.buffer b) (t ++ s)).data = t ++ s := rfl
    have hd2 : (Input.withData (.buffer b) s).data = s := rfl
    rw [mp3Duration_start _ false (by rw [hd1, List.length_append]; omega),
      mp3Duration_start _ false (by rw [hd2]; exact hs), hd1, hd2, List.length_append,
      Nat.add_comm t.length s.length,
      scanLoop_fuel_add _ false s.length _ (by
        simp only [size_eq, hd1, initialState, skipId3_tag t s ht, List.length_append]
        push_cast
        omega)]
    exact scanLoop_shift _ _ t s hd1 hd2 (readResult_withData _ _ _) _ _ _
      (by simp [initialState, skipId3_tag t s ht, skipId3_not_id3 s hn])
      (by simp [initialState]) rfl
      (Or.inr (by simp only [initialState, skipId3_not_id3 s hn]; push_cast; omega))

/-- Witness for C19: a tag with a three-byte body in front of one 104-byte frame. -/
theorem leading_tag_ignored_witness :
    mp3Duration (.buffer ([0x49, 0x44, 0x33, 3, 0, 0, 0, 0, 0, 3, 1, 2, 3] ++ frame104))
        false = mp3Duration (.buffer frame104) false ∧
      mp3Duration (.buffer frame104) false = .returned (.fin (26 / 1000)) :=
  ⟨leading_tag_ignored (.buffer []) [0x49, 0x44, 0x33, 3, 0, 0, 0, 0, 0, 3, 1, 2, 3] frame104
      (by decide!) (by decide!) (by decide!),
    by decide!⟩

/-! ## CBR estimate against full scan -/

end Mp3Duration
